import Mathlib

/-!
Shallow embedding of the networth-tracker data extraction and analytics
engine: the currency cell parser, the fixed-layout grid extractor, the
time-series assembler (`extractNetWorthData` / `extractNetWorthDataWithHistory`),
the growth / allocation / performance-highlight analytics, the period
filter, and the investment diversification score.

Amounts are modelled by `JSNum`, a four-way sum capturing the JavaScript
number values these functions can actually produce: a finite rational,
positive or negative infinity, or NaN.  Arithmetic, comparison and
`Math.abs` follow the ECMAScript semantics on those values (negative zero
is identified with zero, and decimal-to-binary rounding is not modelled:
every claim below is about exact comparisons, guards and list structure,
never about floating-point rounding error).
-/

namespace NWT

/-- A JavaScript number as produced by this code base: a finite rational,
`Infinity`, `-Infinity`, or `NaN`. -/
inductive JSNum where
  | finite (q : ℚ)
  | pinf
  | ninf
  | nan
deriving DecidableEq, Repr

namespace JSNum

/-- The JavaScript strict comparison `a < b` (false whenever an operand is NaN). -/
def ltb : JSNum → JSNum → Bool
  | nan, _ => false
  | _, nan => false
  | finite p, finite q => decide (p < q)
  | finite _, pinf => true
  | finite _, ninf => false
  | pinf, _ => false
  | ninf, ninf => false
  | ninf, _ => true

/-- The JavaScript comparison `a <= b` (false whenever an operand is NaN). -/
def leb : JSNum → JSNum → Bool
  | nan, _ => false
  | _, nan => false
  | finite p, finite q => decide (p ≤ q)
  | finite _, pinf => true
  | finite _, ninf => false
  | pinf, pinf => true
  | pinf, _ => false
  | ninf, _ => true

/-- JavaScript subtraction `a - b`. -/
def sub : JSNum → JSNum → JSNum
  | nan, _ => nan
  | _, nan => nan
  | finite p, finite q => finite (p - q)
  | finite _, pinf => ninf
  | finite _, ninf => pinf
  | pinf, finite _ => pinf
  | ninf, finite _ => ninf
  | pinf, pinf => nan
  | pinf, ninf => pinf
  | ninf, pinf => ninf
  | ninf, ninf => nan

/-- JavaScript multiplication `a * b`. -/
def mul : JSNum → JSNum → JSNum
  | nan, _ => nan
  | _, nan => nan
  | finite p, finite q => finite (p * q)
  | finite p, pinf => if p = 0 then nan else if 0 < p then pinf else ninf
  | finite p, ninf => if p = 0 then nan else if 0 < p then ninf else pinf
  | pinf, finite q => if q = 0 then nan else if 0 < q then pinf else ninf
  | ninf, finite q => if q = 0 then nan else if 0 < q then ninf else pinf
  | pinf, pinf => pinf
  | pinf, ninf => ninf
  | ninf, pinf => ninf
  | ninf, ninf => pinf

/-- JavaScript division `a / b` (division by zero yields an infinity or NaN,
never an exception; negative zero is identified with zero). -/
def div : JSNum → JSNum → JSNum
  | nan, _ => nan
  | _, nan => nan
  | finite p, finite q =>
      if q = 0 then (if p = 0 then nan else if 0 < p then pinf else ninf)
      else finite (p / q)
  | finite _, pinf => finite 0
  | finite _, ninf => finite 0
  | pinf, finite q => if 0 ≤ q then pinf else ninf
  | ninf, finite q => if 0 ≤ q then ninf else pinf
  | pinf, _ => nan
  | ninf, _ => nan

/-- JavaScript `Math.abs`. -/
def abs : JSNum → JSNum
  | finite q => finite |q|
  | pinf => pinf
  | ninf => pinf
  | nan => nan

/-- JavaScript addition `a + b`. -/
def add : JSNum → JSNum → JSNum
  | nan, _ => nan
  | _, nan => nan
  | finite p, finite q => finite (p + q)
  | finite _, pinf => pinf
  | finite _, ninf => ninf
  | pinf, finite _ => pinf
  | ninf, finite _ => ninf
  | pinf, pinf => pinf
  | pinf, ninf => nan
  | ninf, pinf => nan
  | ninf, ninf => ninf

/-- JavaScript `Math.pow(x, 2)`. -/
def sq : JSNum → JSNum
  | finite q => finite (q ^ 2)
  | pinf => pinf
  | ninf => pinf
  | nan => nan

/-- JavaScript `Math.max` on two arguments (NaN if either argument is NaN). -/
def maxJS : JSNum → JSNum → JSNum
  | nan, _ => nan
  | _, nan => nan
  | finite p, finite q => finite (Max.max p q)
  | pinf, _ => pinf
  | _, pinf => pinf
  | ninf, b => b
  | a, ninf => a

/-- JavaScript `Math.min` on two arguments (NaN if either argument is NaN). -/
def minJS : JSNum → JSNum → JSNum
  | nan, _ => nan
  | _, nan => nan
  | finite p, finite q => finite (Min.min p q)
  | ninf, _ => ninf
  | _, ninf => ninf
  | pinf, b => b
  | a, pinf => a

/-- JavaScript `Math.round`: half-way cases round toward positive
infinity; NaN and the infinities pass through. -/
def roundJS : JSNum → JSNum
  | finite q => finite ((⌊q + 1 / 2⌋ : ℤ) : ℚ)
  | pinf => pinf
  | ninf => ninf
  | nan => nan

/-- `x || 0` applied to an optional number field: JavaScript replaces the
falsy values `undefined`, `0` and `NaN` by `0`. -/
def orZero : Option JSNum → JSNum
  | none => finite 0
  | some nan => finite 0
  | some (finite q) => finite q
  | some pinf => pinf
  | some ninf => ninf

/-- A value that is neither finite nor NaN-free: NaN or an infinity. -/
def nonFinite : JSNum → Prop
  | finite _ => False
  | _ => True

instance : DecidablePred nonFinite := fun v => by
  cases v <;> simp [nonFinite] <;> infer_instance

/-- Order embedding of the non-NaN values into a linear order, used to
relate the JavaScript comparisons to `List.argmax` / `List.argmin`. -/
def key : JSNum → WithBot (WithTop ℚ)
  | finite q => ((q : WithTop ℚ) : WithBot (WithTop ℚ))
  | pinf => ((⊤ : WithTop ℚ) : WithBot (WithTop ℚ))
  | ninf => ⊥
  | nan => ⊥

end JSNum

/-! ## Currency cell parser (`parseIndianCurrency`) -/

/-- Numeric value of a digit string, most significant digit first. -/
def digitsToNat (ds : List Char) : ℕ :=
  ds.foldl (fun n c => 10 * n + (c.toNat - 48)) 0

/-- The whitespace characters skipped by JavaScript `parseFloat`. -/
def isSpaceJS (c : Char) : Bool :=
  c = ' ' || c = '\t' || c = '\n' || c = '\r'

/-- Consume one optional leading sign: returns whether it was a minus,
and the remaining characters. -/
def parseSign (cs : List Char) : Bool × List Char :=
  (decide (cs.head? = some '-'),
    if cs.head? = some '+' ∨ cs.head? = some '-' then cs.tail else cs)

/-- Exponent part of a `parseFloat` literal: an optional sign followed by
digits; an exponent marker not followed by digits is ignored (the longest
valid prefix ends before it). -/
def parseExpPart (r : List Char) : ℤ :=
  let sr := parseSign r
  let eds := sr.2.takeWhile Char.isDigit
  if eds.isEmpty then 0 else (if sr.1 then -1 else 1) * (digitsToNat eds : ℤ)

/-- Scale a mantissa by a signed power of ten. -/
def applyExp (m : ℚ) (e : ℤ) : ℚ :=
  if 0 ≤ e then m * 10 ^ e.toNat else m / 10 ^ (-e).toNat

/-- The unsigned numeric prefix of a `parseFloat` literal after the
optional sign: integer digits, optional fraction after a decimal point,
optional exponent.  `none` models no parsable prefix (NaN). -/
def parseMantExp (cs : List Char) : Option ℚ :=
  let intDigits := cs.takeWhile Char.isDigit
  let rest1 := cs.dropWhile Char.isDigit
  let fracDigits := if rest1.head? = some '.' then rest1.tail.takeWhile Char.isDigit else []
  let rest2 := if rest1.head? = some '.' then rest1.tail.dropWhile Char.isDigit else rest1
  if intDigits.isEmpty ∧ fracDigits.isEmpty then none
  else
    let mant : ℚ :=
      (digitsToNat intDigits : ℚ) + (digitsToNat fracDigits : ℚ) / 10 ^ fracDigits.length
    let e : ℤ :=
      if rest2.head? = some 'e' ∨ rest2.head? = some 'E' then parseExpPart rest2.tail else 0
    some (applyExp mant e)

/-- JavaScript `parseFloat`: longest valid numeric prefix after optional
whitespace and sign; `none` models NaN (no parsable prefix).  The
`Infinity` literal is recognised and yields an infinity. -/
def jsParseFloat (s : String) : Option JSNum :=
  let cs0 := s.data.dropWhile isSpaceJS
  let sgn := parseSign cs0
  if "Infinity".data.isPrefixOf sgn.2 then
    some (if sgn.1 then JSNum.ninf else JSNum.pinf)
  else
    (parseMantExp sgn.2).map fun m => JSNum.finite ((if sgn.1 then -1 else 1) * m)

/-- The integer exponent denoted by the optional exponent part of a
decimal literal: `none` means no exponent, `some (mark, esign, eds)` the
marker character, optional exponent sign and exponent digits. -/
def expValOf : Option (Char × Option Char × List Char) → ℤ
  | none => 0
  | some (_, esign, eds) => (if esign = some '-' then -1 else 1) * (digitsToNat eds : ℤ)

/-- The rational value of a decimal literal given its sign, integer
digits, fraction digits and integer exponent. -/
def decimalValue (neg : Bool) (intDs fracDs : List Char) (e : ℤ) : ℚ :=
  (if neg then -1 else 1) *
    (((digitsToNat intDs : ℚ) + (digitsToNat fracDs : ℚ) / 10 ^ fracDs.length) * 10 ^ e)

/-- The characters of an exponent part: marker, optional sign, digits;
`none` means no exponent part. -/
def expChars : Option (Char × Option Char × List Char) → List Char
  | none => []
  | some (mark, esign, eds) => mark :: (esign.toList ++ eds)

/-- The characters of a decimal literal assembled from its parts:
optional sign, integer digits, optional decimal point with fraction
digits, optional exponent (marker, optional sign, digits). -/
def literalChars (sign : Option Char) (intDs fracDs : List Char) (dot : Bool)
    (ex : Option (Char × Option Char × List Char)) : List Char :=
  sign.toList ++ intDs ++ (if dot then '.' :: fracDs else []) ++ expChars ex

/-- After an optional leading sign the characters hold no leading digit,
so they cannot form the start of an exponent. -/
def noExpStart (l : List Char) : Prop :=
  ((if l.head? = some '+' ∨ l.head? = some '-' then l.tail else l).head?.all
    fun c => !c.isDigit) = true

/-- `value.replace(/[₹,"]/g, '').trim()`: strip the currency symbol, comma
separators and quote characters, then trim surrounding whitespace. -/
def cleanCurrency (s : String) : String :=
  (String.mk (s.data.filter fun c => ¬ (c = '₹' ∨ c = ',' ∨ c = '"'))).trim

/-- `parseIndianCurrency` from `src/lib/types.ts`: empty / undefined / the
literal `"₹0"` map to `0`; otherwise the cell is cleaned and handed to
`parseFloat`, with a NaN result coerced to `0`. -/
def parseIndianCurrency (value : Option String) : JSNum :=
  match value with
  | none => JSNum.finite 0
  | some s =>
      if s = "" ∨ s = "₹0" then JSNum.finite 0
      else
        match jsParseFloat (cleanCurrency s) with
        | none => JSNum.finite 0
        | some v => v

/-! ## Data model (`src/lib/types.ts`) -/

/-- One named bank-account row and its per-period values. -/
structure BankAccount where
  name : String
  values : List JSNum
deriving DecidableEq, Repr

/-- One named investment row and its per-period values. -/
structure InvestmentAccount where
  name : String
  values : List JSNum
deriving DecidableEq, Repr

/-- One named other-asset row and its per-period values. -/
structure Asset where
  name : String
  values : List JSNum
deriving DecidableEq, Repr

/-- One named debt row and its per-period values. -/
structure Debt where
  name : String
  values : List JSNum
deriving DecidableEq, Repr

/-- The `bankAccounts` block of a `NetWorthEntry`. -/
structure BankAccountsBlock where
  accounts : List BankAccount
  subtotal : JSNum
deriving DecidableEq, Repr

/-- The `investments` block of a `NetWorthEntry`. -/
structure InvestmentsBlock where
  accounts : List InvestmentAccount
  subtotal : JSNum
deriving DecidableEq, Repr

/-- The `otherAssets` block of a `NetWorthEntry`. -/
structure OtherAssetsBlock where
  assets : List Asset
  subtotal : JSNum
deriving DecidableEq, Repr

/-- The `debt` block of a `NetWorthEntry`. -/
structure DebtBlock where
  debts : List Debt
  subtotal : JSNum
deriving DecidableEq, Repr

/-- One period's complete financial snapshot. -/
structure NetWorthEntry where
  date : String
  bankAccounts : BankAccountsBlock
  investments : InvestmentsBlock
  otherAssets : OtherAssetsBlock
  debt : DebtBlock
  totalAssets : JSNum
  totalDebt : JSNum
  netWorth : JSNum
  monthOverMonthChange : Option JSNum
  yearOverYearChange : Option JSNum := none
deriving DecidableEq, Repr

/-! ## Row/column layout constants (`SHEET_ROWS`, `SHEET_COLUMNS`) -/

def SHEET_ROWS.DATE_HEADERS : ℕ := 2
def SHEET_ROWS.BANK_ACCOUNTS_START : ℕ := 6
def SHEET_ROWS.BANK_ACCOUNTS_END : ℕ := 9
def SHEET_ROWS.BANK_SUBTOTAL : ℕ := 17
def SHEET_ROWS.INVESTMENT_ACCOUNTS_START : ℕ := 21
def SHEET_ROWS.INVESTMENT_ACCOUNTS_END : ℕ := 28
def SHEET_ROWS.INVESTMENT_SUBTOTAL : ℕ := 35
def SHEET_ROWS.ASSETS_START : ℕ := 39
def SHEET_ROWS.ASSETS_END : ℕ := 41
def SHEET_ROWS.ASSETS_SUBTOTAL : ℕ := 50
def SHEET_ROWS.DEBT_START : ℕ := 54
def SHEET_ROWS.DEBT_END : ℕ := 55
def SHEET_ROWS.DEBT_SUBTOTAL : ℕ := 65
def SHEET_ROWS.TOTAL_ASSETS : ℕ := 67
def SHEET_ROWS.TOTAL_DEBT : ℕ := 68
def SHEET_ROWS.NET_WORTH : ℕ := 69
def SHEET_ROWS.MONTH_CHANGE : ℕ := 70
def SHEET_COLUMNS.DATA_START : ℕ := 3
def SHEET_COLUMNS.DATA_END : ℕ := 26

/-- The raw 2-D grid of string cells.  A missing row behaves as an empty
row and a missing cell as JavaScript `undefined` (`Option.none`). -/
abbrev Grid := List (List String)

/-- `rawData[rowIndex][DATA_START + colIndex]` for a data column. -/
def cellAt (rawData : Grid) (rowIndex colIndex : ℕ) : Option String :=
  (rawData.getD rowIndex []).get? (SHEET_COLUMNS.DATA_START + colIndex)

/-- `rawData[DATE_HEADERS].slice(DATA_START, DATA_END + 1)`. -/
def dateHeadersOf (rawData : Grid) : List String :=
  ((rawData.getD SHEET_ROWS.DATE_HEADERS []).drop SHEET_COLUMNS.DATA_START).take
    (SHEET_COLUMNS.DATA_END + 1 - SHEET_COLUMNS.DATA_START)

/-! ## Grid extractor: per-category line items -/

/-- `extractBankAccounts`: walk the bank-account rows, skip rows with an
empty name, parse one value per date column, and keep only rows with at
least one strictly positive value. -/
def extractBankAccounts (rawData : Grid) (dateHeaders : List String) : List BankAccount :=
  (List.range' SHEET_ROWS.BANK_ACCOUNTS_START
      (SHEET_ROWS.BANK_ACCOUNTS_END - SHEET_ROWS.BANK_ACCOUNTS_START + 1)).filterMap
    fun rowIndex =>
      match rawData.get? rowIndex with
      | none => none
      | some row =>
          match row.get? 2 with
          | none => none
          | some accountName =>
              if accountName.trim = "" then none
              else
                let values := dateHeaders.enum.map fun p =>
                  parseIndianCurrency (row.get? (SHEET_COLUMNS.DATA_START + p.1))
                if values.any (fun v => JSNum.ltb (JSNum.finite 0) v) then
                  some { name := accountName.trim, values := values }
                else none

/-- `extractInvestmentAccounts`: same walk over the investment rows. -/
def extractInvestmentAccounts (rawData : Grid) (dateHeaders : List String) :
    List InvestmentAccount :=
  (List.range' SHEET_ROWS.INVESTMENT_ACCOUNTS_START
      (SHEET_ROWS.INVESTMENT_ACCOUNTS_END - SHEET_ROWS.INVESTMENT_ACCOUNTS_START + 1)).filterMap
    fun rowIndex =>
      match rawData.get? rowIndex with
      | none => none
      | some row =>
          match row.get? 2 with
          | none => none
          | some accountName =>
              if accountName.trim = "" then none
              else
                let values := dateHeaders.enum.map fun p =>
                  parseIndianCurrency (row.get? (SHEET_COLUMNS.DATA_START + p.1))
                if values.any (fun v => JSNum.ltb (JSNum.finite 0) v) then
                  some { name := accountName.trim, values := values }
                else none

/-- `extractAssets`: same walk over the other-asset rows. -/
def extractAssets (rawData : Grid) (dateHeaders : List String) : List Asset :=
  (List.range' SHEET_ROWS.ASSETS_START
      (SHEET_ROWS.ASSETS_END - SHEET_ROWS.ASSETS_START + 1)).filterMap
    fun rowIndex =>
      match rawData.get? rowIndex with
      | none => none
      | some row =>
          match row.get? 2 with
          | none => none
          | some assetName =>
              if assetName.trim = "" then none
              else
                let values := dateHeaders.enum.map fun p =>
                  parseIndianCurrency (row.get? (SHEET_COLUMNS.DATA_START + p.1))
                if values.any (fun v => JSNum.ltb (JSNum.finite 0) v) then
                  some { name := assetName.trim, values := values }
                else none

/-- `extractDebts`: same walk over the debt rows, except every parsed value
is coerced to its absolute value (`Math.abs`). -/
def extractDebts (rawData : Grid) (dateHeaders : List String) : List Debt :=
  (List.range' SHEET_ROWS.DEBT_START
      (SHEET_ROWS.DEBT_END - SHEET_ROWS.DEBT_START + 1)).filterMap
    fun rowIndex =>
      match rawData.get? rowIndex with
      | none => none
      | some row =>
          match row.get? 2 with
          | none => none
          | some debtName =>
              if debtName.trim = "" then none
              else
                let values := dateHeaders.enum.map fun p =>
                  JSNum.abs (parseIndianCurrency (row.get? (SHEET_COLUMNS.DATA_START + p.1)))
                if values.any (fun v => JSNum.ltb (JSNum.finite 0) v) then
                  some { name := debtName.trim, values := values }
                else none

/-! ## Time-series assembler -/

/-- `extractNetWorthData` (monthly-snapshot assembly mode): one entry per
date column with a non-empty header and a strictly positive parsed
net-worth cell; each category's item list carries only that column's
value.  (`account.values[colIndex]` is always in range because the value
lists are built with one value per date column; the `getD` default is
unreachable.) -/
def extractNetWorthData (rawData : Grid) : List NetWorthEntry :=
  let dateHeaders := dateHeadersOf rawData
  let bankAccounts := extractBankAccounts rawData dateHeaders
  let investmentAccounts := extractInvestmentAccounts rawData dateHeaders
  let assets := extractAssets rawData dateHeaders
  let debts := extractDebts rawData dateHeaders
  dateHeaders.enum.filterMap fun p =>
    if p.2 = "" then none
    else
      let netWorth := parseIndianCurrency (cellAt rawData SHEET_ROWS.NET_WORTH p.1)
      if JSNum.ltb (JSNum.finite 0) netWorth then
        some
          { date := p.2
            bankAccounts :=
              { subtotal := parseIndianCurrency (cellAt rawData SHEET_ROWS.BANK_SUBTOTAL p.1)
                accounts := bankAccounts.map fun account =>
                  { name := account.name
                    values := [account.values.getD p.1 (JSNum.finite 0)] } }
            investments :=
              { subtotal := parseIndianCurrency (cellAt rawData SHEET_ROWS.INVESTMENT_SUBTOTAL p.1)
                accounts := investmentAccounts.map fun account =>
                  { name := account.name
                    values := [account.values.getD p.1 (JSNum.finite 0)] } }
            otherAssets :=
              { subtotal := parseIndianCurrency (cellAt rawData SHEET_ROWS.ASSETS_SUBTOTAL p.1)
                assets := assets.map fun asset =>
                  { name := asset.name
                    values := [asset.values.getD p.1 (JSNum.finite 0)] } }
            debt :=
              { subtotal :=
                  JSNum.abs (parseIndianCurrency (cellAt rawData SHEET_ROWS.DEBT_SUBTOTAL p.1))
                debts := debts.map fun debt =>
                  { name := debt.name
                    values := [debt.values.getD p.1 (JSNum.finite 0)] } }
            totalAssets := parseIndianCurrency (cellAt rawData SHEET_ROWS.TOTAL_ASSETS p.1)
            totalDebt := JSNum.abs (parseIndianCurrency (cellAt rawData SHEET_ROWS.TOTAL_DEBT p.1))
            netWorth := netWorth
            monthOverMonthChange :=
              some (parseIndianCurrency (cellAt rawData SHEET_ROWS.MONTH_CHANGE p.1))
            yearOverYearChange := none }
      else none

/-- `extractNetWorthDataWithHistory` (full-history assembly mode): same
column scan and summary fields, but every entry carries the complete
per-category item histories. -/
def extractNetWorthDataWithHistory (rawData : Grid) : List NetWorthEntry :=
  let dateHeaders := dateHeadersOf rawData
  let bankAccounts := extractBankAccounts rawData dateHeaders
  let investmentAccounts := extractInvestmentAccounts rawData dateHeaders
  let assets := extractAssets rawData dateHeaders
  let debts := extractDebts rawData dateHeaders
  dateHeaders.enum.filterMap fun p =>
    if p.2 = "" then none
    else
      let netWorth := parseIndianCurrency (cellAt rawData SHEET_ROWS.NET_WORTH p.1)
      if JSNum.ltb (JSNum.finite 0) netWorth then
        some
          { date := p.2
            bankAccounts :=
              { subtotal := parseIndianCurrency (cellAt rawData SHEET_ROWS.BANK_SUBTOTAL p.1)
                accounts := bankAccounts }
            investments :=
              { subtotal := parseIndianCurrency (cellAt rawData SHEET_ROWS.INVESTMENT_SUBTOTAL p.1)
                accounts := investmentAccounts }
            otherAssets :=
              { subtotal := parseIndianCurrency (cellAt rawData SHEET_ROWS.ASSETS_SUBTOTAL p.1)
                assets := assets }
            debt :=
              { subtotal :=
                  JSNum.abs (parseIndianCurrency (cellAt rawData SHEET_ROWS.DEBT_SUBTOTAL p.1))
                debts := debts }
            totalAssets := parseIndianCurrency (cellAt rawData SHEET_ROWS.TOTAL_ASSETS p.1)
            totalDebt := JSNum.abs (parseIndianCurrency (cellAt rawData SHEET_ROWS.TOTAL_DEBT p.1))
            netWorth := netWorth
            monthOverMonthChange :=
              some (parseIndianCurrency (cellAt rawData SHEET_ROWS.MONTH_CHANGE p.1))
            yearOverYearChange := none }
      else none

/-- The column filter of the assembler, as a Boolean predicate on an
indexed date header. -/
def keepCol (g : Grid) (p : ℕ × String) : Bool :=
  !(p.2 = "") && JSNum.ltb (JSNum.finite 0) (parseIndianCurrency (cellAt g SHEET_ROWS.NET_WORTH p.1))

/-- The summary fields shared by the two assembly modes: everything in a
`NetWorthEntry` except the per-category item lists. -/
def summaryOf (e : NetWorthEntry) :
    String × JSNum × JSNum × JSNum × JSNum × JSNum × JSNum × JSNum × Option JSNum :=
  (e.date, e.bankAccounts.subtotal, e.investments.subtotal, e.otherAssets.subtotal,
    e.debt.subtotal, e.totalAssets, e.totalDebt, e.netWorth, e.monthOverMonthChange)

/-- A concrete 71-row grid with two populated date columns, used to witness
the grid-level theorems. -/
def sampleGrid : Grid :=
  ((((((((((((((List.replicate 71 ([] : List String)).set
    2 ["", "", "", "Apr, 2025", "May, 2025", ""]).set
    6 ["", "", "HDFC", "₹33,940", "₹40,000"]).set
    7 ["", "", "Zerodha funds", "₹0", "₹100"]).set
    21 ["", "", "Equity", "₹2,20,000", "₹2,50,000"]).set
    39 ["", "", "Edyar land", "₹1,00,000", "₹1,00,000"]).set
    17 ["", "", "Subtotal", "₹33,940", "₹40,100"]).set
    35 ["", "", "Subtotal", "₹2,20,000", "₹2,50,000"]).set
    50 ["", "", "Subtotal", "₹1,00,000", "₹1,00,000"]).set
    54 ["", "", "Home loan", "-₹50,000", "-₹45,000"]).set
    65 ["", "", "Subtotal", "-₹50,000", "-₹45,000"]).set
    67 ["", "", "Total", "₹3,53,940", "₹3,90,100"]).set
    68 ["", "", "Total", "-₹50,000", "-₹45,000"]).set
    69 ["", "", "Net", "₹3,03,940", "₹3,45,100"]).set
    70 ["", "", "Change", "₹0", "₹41,160"]

/-! ## Period filter, growth and allocation analytics -/

/-- A placeholder entry used only as the (unreachable) default of `headD`
and `getLastD` under the length guards of the growth functions. -/
def dummyEntry : NetWorthEntry :=
  { date := ""
    bankAccounts := { accounts := [], subtotal := JSNum.finite 0 }
    investments := { accounts := [], subtotal := JSNum.finite 0 }
    otherAssets := { assets := [], subtotal := JSNum.finite 0 }
    debt := { debts := [], subtotal := JSNum.finite 0 }
    totalAssets := JSNum.finite 0
    totalDebt := JSNum.finite 0
    netWorth := JSNum.finite 0
    monthOverMonthChange := none }

/-- `calculateGrowthRate`: `((newest − oldest) / oldest) × 100` guarded
only by `data.length < 2` (there is no guard on `oldest == 0`). -/
def calculateGrowthRate (data : List NetWorthEntry) : JSNum :=
  if data.length < 2 then JSNum.finite 0
  else
    let oldest := (data.headD dummyEntry).netWorth
    let newest := (data.getLastD dummyEntry).netWorth
    JSNum.mul (JSNum.div (JSNum.sub newest oldest) oldest) (JSNum.finite 100)

/-- `calculateTotalGrowth`: `newest − oldest`, `0` for fewer than 2 entries. -/
def calculateTotalGrowth (data : List NetWorthEntry) : JSNum :=
  if data.length < 2 then JSNum.finite 0
  else JSNum.sub (data.getLastD dummyEntry).netWorth (data.headD dummyEntry).netWorth

/-- Result record of the utils `calculateAssetAllocation`. -/
structure AssetAllocation where
  bankAccounts : JSNum
  investments : JSNum
  otherAssets : JSNum
deriving DecidableEq, Repr

/-- `calculateAssetAllocation` (utils module): each category's subtotal
over `totalAssets`, ×100, with no guard on `totalAssets == 0`. -/
def calculateAssetAllocation (latestEntry : NetWorthEntry) : AssetAllocation :=
  let total := latestEntry.totalAssets
  { bankAccounts := JSNum.mul (JSNum.div latestEntry.bankAccounts.subtotal total) (JSNum.finite 100)
    investments := JSNum.mul (JSNum.div latestEntry.investments.subtotal total) (JSNum.finite 100)
    otherAssets := JSNum.mul (JSNum.div latestEntry.otherAssets.subtotal total) (JSNum.finite 100) }

/-- One row of the analytics-module asset allocation. -/
structure AssetAllocationData where
  category : String
  value : JSNum
  percentage : JSNum
  color : String
deriving DecidableEq, Repr

/-- `calculateAssetAllocation` (analytics module): returns `[]` when
`totalAssets === 0`, otherwise the three category rows filtered to those
with a strictly positive value. -/
def analyticsCalculateAssetAllocation (latestEntry : NetWorthEntry) :
    List AssetAllocationData :=
  let total := latestEntry.totalAssets
  if total = JSNum.finite 0 then []
  else
    ([{ category := "Bank Accounts"
        value := latestEntry.bankAccounts.subtotal
        percentage := JSNum.mul (JSNum.div latestEntry.bankAccounts.subtotal total) (JSNum.finite 100)
        color := "#3B82F6" },
      { category := "Investments"
        value := latestEntry.investments.subtotal
        percentage := JSNum.mul (JSNum.div latestEntry.investments.subtotal total) (JSNum.finite 100)
        color := "#10B981" },
      { category := "Other Assets"
        value := latestEntry.otherAssets.subtotal
        percentage := JSNum.mul (JSNum.div latestEntry.otherAssets.subtotal total) (JSNum.finite 100)
        color := "#8B5CF6" }]).filter
      fun item => JSNum.ltb (JSNum.finite 0) item.value

/-- The period filter options. -/
inductive TimePeriod where
  | all
  | sixMonths
  | threeMonths
  | oneMonth
deriving DecidableEq, Repr

/-- `filterDataByPeriod`: `all` or empty input returns the input; named
periods keep a trailing window of 1, 3 or 6 entries (`slice(-n)`). -/
def filterDataByPeriod (data : List NetWorthEntry) (period : TimePeriod) :
    List NetWorthEntry :=
  if period = TimePeriod.all ∨ data.length = 0 then data
  else
    let monthsToInclude :=
      match period with
      | TimePeriod.oneMonth => 1
      | TimePeriod.threeMonths => 3
      | TimePeriod.sixMonths => 6
      | TimePeriod.all => data.length
    data.drop (data.length - monthsToInclude)

/-! ## Performance highlights (both module versions) -/

/-- One candidate month of the utils `getPerformanceHighlights`. -/
structure PerformanceHighlight where
  month : String
  change : JSNum
  index : ℕ
deriving DecidableEq, Repr

/-- Result record of the utils `getPerformanceHighlights`. -/
structure PerformanceHighlights where
  bestMonth : PerformanceHighlight
  worstMonth : PerformanceHighlight
deriving DecidableEq, Repr

/-- The `validChanges` intermediate of the utils version: every entry,
indexed, with `change := monthOverMonthChange || 0`, keeping only items
whose change is not exactly `0`. -/
def validChangesU (data : List NetWorthEntry) : List PerformanceHighlight :=
  (data.enum.map fun p =>
    { month := p.2.date, change := JSNum.orZero p.2.monthOverMonthChange, index := p.1 }).filter
    fun item => item.change != JSNum.finite 0

/-- `getPerformanceHighlights` (utils module): two unguarded `reduce`
calls over `validChanges`; on an empty `validChanges` JavaScript `reduce`
with no initial value throws a `TypeError`, modelled as `none`. -/
def getPerformanceHighlights (data : List NetWorthEntry) : Option PerformanceHighlights :=
  match validChangesU data with
  | [] => none
  | x :: xs =>
      some
        { bestMonth :=
            xs.foldl (fun max curr => if JSNum.ltb max.change curr.change then curr else max) x
          worstMonth :=
            xs.foldl (fun min curr => if JSNum.ltb curr.change min.change then curr else min) x }

/-- One candidate month of the analytics-module `getPerformanceHighlights`
(`index := none` models the guard's default object, which carries no
`index` property). -/
structure AnalyticsHighlight where
  date : String
  change : JSNum
  index : Option ℕ
deriving DecidableEq, Repr

/-- Result record of the analytics-module `getPerformanceHighlights`. -/
structure AnalyticsHighlights where
  bestMonth : AnalyticsHighlight
  worstMonth : AnalyticsHighlight
deriving DecidableEq, Repr

/-- The `validChanges` intermediate of the analytics version. -/
def validChangesA (entries : List NetWorthEntry) : List AnalyticsHighlight :=
  (entries.enum.map fun p =>
    { date := p.2.date, change := JSNum.orZero p.2.monthOverMonthChange,
      index := some p.1 }).filter
    fun item => item.change != JSNum.finite 0

/-- `getPerformanceHighlights` (analytics module): same reductions, but an
empty `validChanges` returns the zeroed default highlights instead of
throwing. -/
def analyticsGetPerformanceHighlights (entries : List NetWorthEntry) : AnalyticsHighlights :=
  match validChangesA entries with
  | [] =>
      { bestMonth := { date := "", change := JSNum.finite 0, index := none }
        worstMonth := { date := "", change := JSNum.finite 0, index := none } }
  | x :: xs =>
      { bestMonth :=
          xs.foldl (fun max curr => if JSNum.ltb max.change curr.change then curr else max) x
        worstMonth :=
          xs.foldl (fun min curr => if JSNum.ltb curr.change min.change then curr else min) x }

/-- An entry differing from `dummyEntry` only in its `netWorth`. -/
def entryWithNetWorth (nw : JSNum) : NetWorthEntry :=
  { dummyEntry with date := "x", netWorth := nw }

/-- A two-entry series whose first entry has net worth `0`. -/
def zeroFirstSeries : List NetWorthEntry :=
  [entryWithNetWorth (JSNum.finite 0), entryWithNetWorth (JSNum.finite 100)]

/-! ## Investment diversification score (investment analytics module) -/

/-- A detailed investment; only `name` and `currentValue` are consulted by
the diversification score (the other fields of the TypeScript interface
play no role in it and are omitted).  The current value is a JavaScript
number: `parseFloat` can produce an infinity from an `"Infinity"` cell,
and the `> 0` extraction filters keep it. -/
structure DetailedInvestment where
  name : String
  currentValue : JSNum
deriving DecidableEq, Repr

/-- `investments.reduce((sum, inv) => sum + inv.currentValue, 0)`. -/
def totalCurrentValue (investments : List DetailedInvestment) : JSNum :=
  investments.foldl (fun sum inv => JSNum.add sum inv.currentValue) (JSNum.finite 0)

/-- JavaScript `Math.round` on an (already finite) rational: half-way
cases round toward positive infinity. -/
def jsRound (q : ℚ) : ℚ :=
  ((⌊q + 1 / 2⌋ : ℤ) : ℚ)

/-- The HHI as the spec words it, over the finite current values of a
portfolio: the sum of squared percentage shares per instrument. -/
def hhiSpecQ (qs : List ℚ) : ℚ :=
  (qs.map fun v => (v / qs.sum * 100) ^ 2).sum

/-- `calculateDiversificationScore`: `100 − HHI/10000×100`, rounded to one
decimal and clamped via `Math.max(0, Math.min(100, …))`; `0` for an empty
list or a total current value equal to `0`.  All arithmetic is JavaScript
number arithmetic: a non-finite current value propagates NaN through the
shares into the final result. -/
def calculateDiversificationScore (investments : List DetailedInvestment) : JSNum :=
  if investments.length = 0 then JSNum.finite 0
  else
    let totalValue := totalCurrentValue investments
    if totalValue = JSNum.finite 0 then JSNum.finite 0
    else
      let hhi := investments.foldl
        (fun sum inv =>
          JSNum.add sum
            (JSNum.sq (JSNum.mul (JSNum.div inv.currentValue totalValue) (JSNum.finite 100))))
        (JSNum.finite 0)
      let score := JSNum.sub (JSNum.finite 100)
        (JSNum.mul (JSNum.div hhi (JSNum.finite 10000)) (JSNum.finite 100))
      JSNum.maxJS (JSNum.finite 0)
        (JSNum.minJS (JSNum.finite 100)
          (JSNum.div (JSNum.roundJS (JSNum.mul score (JSNum.finite 10))) (JSNum.finite 10)))

/-- A series whose only changes are the "not applicable" sentinel `0` (or
missing). -/
def zeroChangeSeries : List NetWorthEntry :=
  [{ dummyEntry with monthOverMonthChange := some (JSNum.finite 0) },
   { dummyEntry with monthOverMonthChange := none }]

/-- A series with one sentinel-zero change and two real changes. -/
def mixedChangeSeries : List NetWorthEntry :=
  [{ dummyEntry with date := "Jan", monthOverMonthChange := some (JSNum.finite 0) },
   { dummyEntry with date := "Feb", monthOverMonthChange := some (JSNum.finite 500) },
   { dummyEntry with date := "Mar", monthOverMonthChange := some (JSNum.finite 200) }]

/-! ## Theorems

Claim-level theorems and their witnesses, preceded by the supporting
lemmas (parser character lemmas, extractor membership lemmas, and the
`argmax`/`argmin` bridge for the reduce-based selections). -/

theorem JSNum.ltb_eq_key_lt {a b : JSNum} (ha : a ≠ JSNum.nan) (hb : b ≠ JSNum.nan) :
    JSNum.ltb a b = true ↔ JSNum.key a < JSNum.key b := by
  cases a with
  | nan => exact absurd rfl ha
  | finite p =>
      cases b with
      | nan => exact absurd rfl hb
      | finite q => simp [ltb, key, WithBot.coe_lt_coe, WithTop.coe_lt_coe]
      | pinf =>
          simp only [ltb, key, true_iff]
          exact WithBot.coe_lt_coe.mpr (WithTop.coe_lt_top p)
      | ninf => simp [ltb, key, not_lt_bot]
  | pinf =>
      cases b with
      | nan => exact absurd rfl hb
      | finite q => simp [ltb, key, not_top_lt]
      | pinf => simp [ltb, key]
      | ninf => simp [ltb, key, not_lt_bot]
  | ninf =>
      cases b with
      | nan => exact absurd rfl hb
      | finite q => simp [ltb, key, WithBot.bot_lt_coe]
      | pinf => simp [ltb, key, bot_lt_top]
      | ninf => simp [ltb, key]

theorem jsParseFloat_ne_nan (s : String) {v : JSNum} (h : jsParseFloat s = some v) :
    v ≠ JSNum.nan := by
  unfold jsParseFloat at h
  dsimp only at h
  split at h
  · injection h with h
    subst h
    split <;> simp
  · rcases Option.map_eq_some'.mp h with ⟨m, -, hm⟩
    subst hm
    simp

theorem parseIndianCurrency_ne_nan (value : Option String) :
    parseIndianCurrency value ≠ JSNum.nan := by
  cases value with
  | none => simp [parseIndianCurrency]
  | some s =>
      by_cases h : s = "" ∨ s = "₹0"
      · simp [parseIndianCurrency, h]
      · rcases hp : jsParseFloat (cleanCurrency s) with _ | v
        · simp [parseIndianCurrency, h, hp]
        · simpa [parseIndianCurrency, h, hp] using jsParseFloat_ne_nan (cleanCurrency s) hp

theorem digit_not_space {c : Char} (h : c.isDigit = true) : isSpaceJS c = false := by
  cases hsp : isSpaceJS c with
  | false => rfl
  | true =>
      exfalso
      simp only [isSpaceJS, Bool.or_eq_true, decide_eq_true_eq] at hsp
      rcases hsp with ((rfl | rfl) | rfl) | rfl <;> exact absurd h (by decide)

theorem digit_ne_of_not_digit {c x : Char} (h : c.isDigit = true)
    (hx : x.isDigit = false) : c ≠ x := by
  intro hc
  rw [hc, hx] at h
  exact Bool.noConfusion h

theorem takeWhile_append_of_all {α : Type} (p : α → Bool) :
    ∀ (l₁ l₂ : List α), (∀ x ∈ l₁, p x = true) →
      (l₁ ++ l₂).takeWhile p = l₁ ++ l₂.takeWhile p
  | [], _, _ => by simp
  | x :: xs, l₂, h => by
      have hx : p x = true := h x (List.mem_cons_self x xs)
      simp only [List.cons_append, List.takeWhile_cons, hx, if_true]
      rw [takeWhile_append_of_all p xs l₂ fun y hy => h y (List.mem_cons_of_mem x hy)]

theorem dropWhile_append_of_all {α : Type} (p : α → Bool) :
    ∀ (l₁ l₂ : List α), (∀ x ∈ l₁, p x = true) →
      (l₁ ++ l₂).dropWhile p = l₂.dropWhile p
  | [], _, _ => by simp
  | x :: xs, l₂, h => by
      have hx : p x = true := h x (List.mem_cons_self x xs)
      simp only [List.cons_append, List.dropWhile_cons, hx, if_true]
      exact dropWhile_append_of_all p xs l₂ fun y hy => h y (List.mem_cons_of_mem x hy)

theorem takeWhile_eq_nil_of_head {α : Type} (p : α → Bool) (l : List α)
    (h : ∀ c ∈ l.head?, p c = false) : l.takeWhile p = [] := by
  cases l with
  | nil => rfl
  | cons x xs => simp [List.takeWhile_cons, h x rfl]

theorem dropWhile_eq_self_of_head {α : Type} (p : α → Bool) (l : List α)
    (h : ∀ c ∈ l.head?, p c = false) : l.dropWhile p = l := by
  cases l with
  | nil => rfl
  | cons x xs => simp [List.dropWhile_cons, h x rfl]

theorem head_notDigit_cons {x : Char} (hx : x.isDigit = false) (xs : List Char) :
    ∀ c ∈ (x :: xs).head?, c.isDigit = false := by
  intro c hc
  rw [Option.mem_def] at hc
  simp only [List.head?_cons, Option.some.injEq] at hc
  subst hc
  exact hx

theorem applyExp_eq_zpow (m : ℚ) (e : ℤ) : applyExp m e = m * (10 : ℚ) ^ e := by
  unfold applyExp
  split_ifs with h
  · rw [← zpow_natCast, Int.toNat_of_nonneg h]
  · rw [← zpow_natCast, Int.toNat_of_nonneg (by omega : (0 : ℤ) ≤ -e), zpow_neg,
      div_eq_mul_inv, inv_inv]

theorem parseSign_eq (sign : Option Char) (C : List Char)
    (hs : sign = none ∨ sign = some '+' ∨ sign = some '-')
    (hC : ∀ c ∈ C.head?, c ≠ '+' ∧ c ≠ '-') :
    parseSign (sign.toList ++ C) = (decide (sign = some '-'), C) := by
  rcases hs with rfl | rfl | rfl
  · cases C with
    | nil => rfl
    | cons c cs =>
        have h := hC c rfl
        simp [parseSign, h.1, h.2]
  · simp [parseSign, Option.toList]
  · simp [parseSign, Option.toList]

theorem parseExpPart_eq (esign : Option Char) (eds R : List Char)
    (hes : esign = none ∨ esign = some '+' ∨ esign = some '-')
    (heds : eds ≠ []) (hd : ∀ c ∈ eds, c.isDigit = true)
    (hR : ∀ c ∈ R.head?, c.isDigit = false) :
    parseExpPart (esign.toList ++ (eds ++ R))
      = (if esign = some '-' then -1 else 1) * (digitsToNat eds : ℤ) := by
  have hC : ∀ c ∈ (eds ++ R).head?, c ≠ '+' ∧ c ≠ '-' := by
    obtain ⟨e0, es', rfl⟩ := List.exists_cons_of_ne_nil heds
    intro c hc
    rw [Option.mem_def] at hc
    simp only [List.cons_append, List.head?_cons, Option.some.injEq] at hc
    subst hc
    have h0 := hd e0 (List.mem_cons_self _ _)
    exact ⟨digit_ne_of_not_digit h0 (by decide), digit_ne_of_not_digit h0 (by decide)⟩
  unfold parseExpPart
  rw [parseSign_eq esign (eds ++ R) hes hC]
  dsimp only
  rw [takeWhile_append_of_all Char.isDigit eds R hd,
    takeWhile_eq_nil_of_head Char.isDigit R hR, List.append_nil]
  rw [if_neg (by simpa [List.isEmpty_iff] using heds)]
  simp

theorem parseExpPart_eq_zero_of_noExpStart (l : List Char) (h : noExpStart l) :
    parseExpPart l = 0 := by
  unfold noExpStart at h
  have hh : ∀ c ∈ (if l.head? = some '+' ∨ l.head? = some '-' then l.tail else l).head?,
      Char.isDigit c = false := by
    intro c hc
    rw [Option.mem_def] at hc
    rw [hc] at h
    simpa using h
  unfold parseExpPart parseSign
  dsimp only
  rw [takeWhile_eq_nil_of_head Char.isDigit _ hh]
  rfl

theorem isPrefixOf_infinity_false {C : List Char} {c0 : Char} (h : C.head? = some c0)
    (hc : c0 ≠ 'I') : "Infinity".data.isPrefixOf C = false := by
  cases C with
  | nil => exact absurd h (by simp)
  | cons x xs =>
      simp only [List.head?_cons, Option.some.injEq] at h
      subst h
      show (('I' == x) && _) = false
      rw [beq_eq_false_iff_ne.mpr (Ne.symm hc), Bool.false_and]

/-- `parseMantExp` on the unsigned part of a decimal literal followed by
junk that cannot extend the number: the literal's digits and exponent are
parsed and the junk is ignored. -/
theorem parseMantExp_eq (intDs fracDs : List Char) (dot : Bool)
    (ex : Option (Char × Option Char × List Char)) (r0 : Char) (rtl : List Char)
    (hint : ∀ c ∈ intDs, c.isDigit = true)
    (hfrac : ∀ c ∈ fracDs, c.isDigit = true)
    (hmant : intDs ≠ [] ∨ fracDs ≠ [])
    (hdotfrac : dot = false → fracDs = [])
    (hex : ∀ mark esign eds, ex = some (mark, esign, eds) →
        (mark = 'e' ∨ mark = 'E') ∧ (esign = none ∨ esign = some '+' ∨ esign = some '-') ∧
          eds ≠ [] ∧ ∀ c ∈ eds, c.isDigit = true)
    (hjunk0 : r0.isDigit = false)
    (hjunkdot : ex = none → r0 = '.' → dot = true)
    (hjunkexp : ex = none → (r0 = 'e' ∨ r0 = 'E') → noExpStart rtl) :
    parseMantExp (intDs ++ ((if dot then '.' :: fracDs else []) ++ (expChars ex ++ (r0 :: rtl))))
      = some (((digitsToNat intDs : ℚ) + (digitsToNat fracDs : ℚ) / 10 ^ fracDs.length)
          * (10 : ℚ) ^ expValOf ex) := by
  have hguard : ¬(intDs.isEmpty = true ∧ fracDs.isEmpty = true) := by
    rcases hmant with h | h <;> simp [List.isEmpty_iff, h]
  rcases ex with _ | ⟨mark, esign, eds⟩
  · simp only [expChars, List.nil_append]
    cases dot
    · have hfe : fracDs = [] := hdotfrac rfl
      subst hfe
      simp only [Bool.false_eq_true, if_false, List.nil_append]
      unfold parseMantExp
      dsimp only
      rw [takeWhile_append_of_all Char.isDigit intDs _ hint,
        takeWhile_eq_nil_of_head Char.isDigit _ (head_notDigit_cons hjunk0 rtl),
        List.append_nil,
        dropWhile_append_of_all Char.isDigit intDs _ hint,
        dropWhile_eq_self_of_head Char.isDigit _ (head_notDigit_cons hjunk0 rtl)]
      have hr0dot : ¬((r0 :: rtl).head? = some '.') := by
        simp only [List.head?_cons, Option.some.injEq]
        intro h
        exact Bool.noConfusion (hjunkdot rfl h)
      rw [if_neg hr0dot, if_neg hr0dot, if_neg hguard]
      by_cases hee : (r0 :: rtl).head? = some 'e' ∨ (r0 :: rtl).head? = some 'E'
      · rw [if_pos hee]
        have he0 : r0 = 'e' ∨ r0 = 'E' := by simpa using hee
        rw [List.tail_cons, parseExpPart_eq_zero_of_noExpStart rtl (hjunkexp rfl he0)]
        simp [applyExp_eq_zpow, expValOf]
      · rw [if_neg hee]
        simp [applyExp_eq_zpow, expValOf]
    · rw [if_pos rfl]
      unfold parseMantExp
      dsimp only
      have hERd : ∀ c ∈ (r0 :: rtl).head?, Char.isDigit c = false :=
        head_notDigit_cons hjunk0 rtl
      rw [show ('.' :: fracDs) ++ (r0 :: rtl) = '.' :: (fracDs ++ (r0 :: rtl)) from rfl]
      rw [takeWhile_append_of_all Char.isDigit intDs _ hint,
        takeWhile_eq_nil_of_head Char.isDigit _ (head_notDigit_cons (by decide) _),
        List.append_nil,
        dropWhile_append_of_all Char.isDigit intDs _ hint,
        dropWhile_eq_self_of_head Char.isDigit _ (head_notDigit_cons (by decide) _)]
      rw [if_pos (show ('.' :: (fracDs ++ (r0 :: rtl))).head? = some '.' from rfl),
        if_pos (show ('.' :: (fracDs ++ (r0 :: rtl))).head? = some '.' from rfl),
        List.tail_cons,
        takeWhile_append_of_all Char.isDigit fracDs _ hfrac,
        takeWhile_eq_nil_of_head Char.isDigit _ hERd, List.append_nil,
        dropWhile_append_of_all Char.isDigit fracDs _ hfrac,
        dropWhile_eq_self_of_head Char.isDigit _ hERd]
      rw [if_neg hguard]
      by_cases hee : (r0 :: rtl).head? = some 'e' ∨ (r0 :: rtl).head? = some 'E'
      · rw [if_pos hee]
        have he0 : r0 = 'e' ∨ r0 = 'E' := by simpa using hee
        rw [List.tail_cons, parseExpPart_eq_zero_of_noExpStart rtl (hjunkexp rfl he0)]
        simp [applyExp_eq_zpow, expValOf]
      · rw [if_neg hee]
        simp [applyExp_eq_zpow, expValOf]
  · obtain ⟨hmark, hesign, heds, hedsd⟩ := hex mark esign eds rfl
    have hmarkd : mark.isDigit = false := by rcases hmark with rfl | rfl <;> decide
    have hmarkdot : ¬((mark :: (esign.toList ++ (eds ++ (r0 :: rtl)))).head? = some '.') := by
      simp only [List.head?_cons, Option.some.injEq]
      rcases hmark with rfl | rfl <;> decide
    have hmarkexp : (mark :: (esign.toList ++ (eds ++ (r0 :: rtl)))).head? = some 'e' ∨
        (mark :: (esign.toList ++ (eds ++ (r0 :: rtl)))).head? = some 'E' := by
      simp only [List.head?_cons, Option.some.injEq]
      rcases hmark with rfl | rfl
      · exact Or.inl rfl
      · exact Or.inr rfl
    have hE
      : expChars (some (mark, esign, eds)) ++ (r0 :: rtl)
          = mark :: (esign.toList ++ (eds ++ (r0 :: rtl))) := by
      simp [expChars, List.append_assoc]
    rw [hE]
    cases dot
    · have hfe : fracDs = [] := hdotfrac rfl
      subst hfe
      simp only [Bool.false_eq_true, if_false, List.nil_append]
      unfold parseMantExp
      dsimp only
      rw [takeWhile_append_of_all Char.isDigit intDs _ hint,
        takeWhile_eq_nil_of_head Char.isDigit _ (head_notDigit_cons hmarkd _),
        List.append_nil,
        dropWhile_append_of_all Char.isDigit intDs _ hint,
        dropWhile_eq_self_of_head Char.isDigit _ (head_notDigit_cons hmarkd _)]
      rw [if_neg hmarkdot, if_neg hmarkdot, if_neg hguard]
      rw [if_pos hmarkexp, List.tail_cons,
        parseExpPart_eq esign eds (r0 :: rtl) hesign heds hedsd
          (head_notDigit_cons hjunk0 rtl)]
      simp [applyExp_eq_zpow, expValOf]
    · rw [if_pos rfl]
      unfold parseMantExp
      dsimp only
      have hMd : ∀ c ∈ (mark :: (esign.toList ++ (eds ++ (r0 :: rtl)))).head?,
          Char.isDigit c = false := head_notDigit_cons hmarkd _
      rw [show ('.' :: fracDs) ++ (mark :: (esign.toList ++ (eds ++ (r0 :: rtl))))
            = '.' :: (fracDs ++ (mark :: (esign.toList ++ (eds ++ (r0 :: rtl))))) from rfl]
      rw [takeWhile_append_of_all Char.isDigit intDs _ hint,
        takeWhile_eq_nil_of_head Char.isDigit _ (head_notDigit_cons (by decide) _),
        List.append_nil,
        dropWhile_append_of_all Char.isDigit intDs _ hint,
        dropWhile_eq_self_of_head Char.isDigit _ (head_notDigit_cons (by decide) _)]
      rw [if_pos (show ('.' :: (fracDs ++ (mark :: (esign.toList ++ (eds ++ (r0 :: rtl)))))).head?
            = some '.' from rfl),
        if_pos (show ('.' :: (fracDs ++ (mark :: (esign.toList ++ (eds ++ (r0 :: rtl)))))).head?
            = some '.' from rfl),
        List.tail_cons,
        takeWhile_append_of_all Char.isDigit fracDs _ hfrac,
        takeWhile_eq_nil_of_head Char.isDigit _ hMd, List.append_nil,
        dropWhile_append_of_all Char.isDigit fracDs _ hfrac,
        dropWhile_eq_self_of_head Char.isDigit _ hMd]
      rw [if_neg hguard]
      rw [if_pos hmarkexp, List.tail_cons,
        parseExpPart_eq esign eds (r0 :: rtl) hesign heds hedsd
          (head_notDigit_cons hjunk0 rtl)]
      simp [applyExp_eq_zpow, expValOf]

/-- `parseFloat` on a string that begins with a full decimal literal —
optional sign, integer digits, optional fraction, optional exponent —
followed by junk that cannot extend the number: the literal is parsed to
its decimal value and the junk is ignored. -/
theorem jsParseFloat_number_lead (t : String) (sign : Option Char)
    (intDs fracDs : List Char) (dot : Bool)
    (ex : Option (Char × Option Char × List Char)) (r0 : Char) (rtl : List Char)
    (ht : t.data = literalChars sign intDs fracDs dot ex ++ (r0 :: rtl))
    (hsign : sign = none ∨ sign = some '+' ∨ sign = some '-')
    (hint : ∀ c ∈ intDs, c.isDigit = true)
    (hfrac : ∀ c ∈ fracDs, c.isDigit = true)
    (hmant : intDs ≠ [] ∨ fracDs ≠ [])
    (hdotfrac : dot = false → fracDs = [])
    (hex : ∀ mark esign eds, ex = some (mark, esign, eds) →
        (mark = 'e' ∨ mark = 'E') ∧ (esign = none ∨ esign = some '+' ∨ esign = some '-') ∧
          eds ≠ [] ∧ ∀ c ∈ eds, c.isDigit = true)
    (hjunk0 : r0.isDigit = false)
    (hjunkdot : ex = none → r0 = '.' → dot = true)
    (hjunkexp : ex = none → (r0 = 'e' ∨ r0 = 'E') → noExpStart rtl) :
    jsParseFloat t = some (JSNum.finite
      (decimalValue (decide (sign = some '-')) intDs fracDs (expValOf ex))) := by
  have hassoc : literalChars sign intDs fracDs dot ex ++ (r0 :: rtl)
      = sign.toList
          ++ (intDs ++ ((if dot then '.' :: fracDs else []) ++ (expChars ex ++ (r0 :: rtl)))) := by
    simp [literalChars, List.append_assoc]
  obtain ⟨c0, C', hC, hc0⟩ :
      ∃ c0 C', intDs ++ ((if dot then '.' :: fracDs else []) ++ (expChars ex ++ (r0 :: rtl)))
          = c0 :: C' ∧ (c0.isDigit = true ∨ c0 = '.') := by
    cases intDs with
    | cons d ds => exact ⟨d, ds ++ _, rfl, Or.inl (hint d (List.mem_cons_self _ _))⟩
    | nil =>
        have hf : fracDs ≠ [] := by
          rcases hmant with h | h
          · exact absurd rfl h
          · exact h
        have hd : dot = true := by
          cases dot
          · exact absurd (hdotfrac rfl) hf
          · rfl
        subst hd
        exact ⟨'.', fracDs ++ (expChars ex ++ (r0 :: rtl)), by simp, Or.inr rfl⟩
  have hc0space : isSpaceJS c0 = false := by
    rcases hc0 with h | rfl
    · exact digit_not_space h
    · decide
  have hc0plus : c0 ≠ '+' := by
    rcases hc0 with h | rfl
    · exact digit_ne_of_not_digit h (by decide)
    · decide
  have hc0minus : c0 ≠ '-' := by
    rcases hc0 with h | rfl
    · exact digit_ne_of_not_digit h (by decide)
    · decide
  have hc0I : c0 ≠ 'I' := by
    rcases hc0 with h | rfl
    · exact digit_ne_of_not_digit h (by decide)
    · decide
  have e1 : (sign.toList ++ (c0 :: C')).dropWhile isSpaceJS = sign.toList ++ (c0 :: C') := by
    rcases hsign with rfl | rfl | rfl
    · simp [List.dropWhile_cons, hc0space]
    · simp [Option.toList, List.dropWhile_cons, (show isSpaceJS '+' = false by decide)]
    · simp [Option.toList, List.dropWhile_cons, (show isSpaceJS '-' = false by decide)]
  have hsgn : parseSign (sign.toList ++ (c0 :: C')) = (decide (sign = some '-'), c0 :: C') :=
    parseSign_eq sign (c0 :: C') hsign (by
      intro c hc
      rw [Option.mem_def] at hc
      simp only [List.head?_cons, Option.some.injEq] at hc
      subst hc
      exact ⟨hc0plus, hc0minus⟩)
  have einf : "Infinity".data.isPrefixOf (c0 :: C') = false :=
    isPrefixOf_infinity_false (by simp) hc0I
  have hcore := parseMantExp_eq intDs fracDs dot ex r0 rtl hint hfrac hmant hdotfrac hex
    hjunk0 hjunkdot hjunkexp
  rw [hC] at hcore
  unfold jsParseFloat
  rw [ht, hassoc, hC, e1]
  dsimp only
  rw [hsgn]
  dsimp only
  rw [hcore]
  simp only [einf, Bool.false_eq_true, if_false, Option.map_some']
  simp only [decimalValue]

theorem JSNum.leb_zero_abs {x : JSNum} (hx : x ≠ JSNum.nan) :
    JSNum.leb (JSNum.finite 0) (JSNum.abs x) = true := by
  cases x with
  | finite q => simp [JSNum.abs, JSNum.leb, abs_nonneg]
  | pinf => rfl
  | ninf => rfl
  | nan => exact absurd rfl hx

/-- Every value of a line item produced by `extractDebts` is the absolute
value of a parsed cell. -/
theorem extractDebts_values {g : Grid} {dh : List String} {d : Debt}
    (hd : d ∈ extractDebts g dh) :
    ∀ v ∈ d.values, ∃ c, v = JSNum.abs (parseIndianCurrency c) := by
  simp only [extractDebts, List.mem_filterMap] at hd
  obtain ⟨rowIndex, -, hf⟩ := hd
  rcases hrow : g.get? rowIndex with _ | row
  · rw [hrow] at hf
    exact absurd hf (by simp)
  rw [hrow] at hf
  dsimp only at hf
  rcases hname : row.get? 2 with _ | debtName
  · rw [hname] at hf
    exact absurd hf (by simp)
  rw [hname] at hf
  dsimp only at hf
  split at hf
  · exact absurd hf (by simp)
  · split at hf
    · injection hf with hf
      subst hf
      intro v hv
      simp only [List.mem_map] at hv
      obtain ⟨p, -, hp⟩ := hv
      exact ⟨_, hp.symm⟩
    · exact absurd hf (by simp)

/-- Unpacks membership in `extractNetWorthData`: the producing column, its
guards, and the debt-related fields of the entry. -/
theorem mem_extractNetWorthData {g : Grid} {e : NetWorthEntry}
    (h : e ∈ extractNetWorthData g) :
    ∃ ci, (dateHeadersOf g).get? ci = some e.date ∧ e.date ≠ "" ∧
      e.netWorth = parseIndianCurrency (cellAt g SHEET_ROWS.NET_WORTH ci) ∧
      JSNum.ltb (JSNum.finite 0) e.netWorth = true ∧
      e.totalDebt = JSNum.abs (parseIndianCurrency (cellAt g SHEET_ROWS.TOTAL_DEBT ci)) ∧
      e.debt.subtotal = JSNum.abs (parseIndianCurrency (cellAt g SHEET_ROWS.DEBT_SUBTOTAL ci)) ∧
      e.debt.debts = (extractDebts g (dateHeadersOf g)).map fun d =>
        { name := d.name, values := [d.values.getD ci (JSNum.finite 0)] } := by
  simp only [extractNetWorthData, List.mem_filterMap] at h
  obtain ⟨p, hp, hf⟩ := h
  split at hf
  · exact absurd hf (by simp)
  · split at hf
    · injection hf with hf
      subst hf
      exact ⟨p.1, List.mk_mem_enum_iff_get?.mp (by simpa using hp), by assumption,
        rfl, by assumption, rfl, rfl, rfl⟩
    · exact absurd hf (by simp)

theorem filterMap_if_eq_map_filter {α β : Type} (q : α → Bool) (h : α → β) (l : List α) :
    l.filterMap (fun a => if q a then some (h a) else none) = (l.filter q).map h := by
  induction l with
  | nil => rfl
  | cons x xs ih => by_cases hx : q x <;> simp [hx, ih]

theorem extractNetWorthData_map_date (g : Grid) :
    (extractNetWorthData g).map NetWorthEntry.date
      = ((dateHeadersOf g).enum.filter (keepCol g)).map Prod.snd := by
  simp only [extractNetWorthData]
  rw [List.map_filterMap, ← filterMap_if_eq_map_filter]
  apply List.filterMap_congr
  intro p _
  by_cases h1 : p.2 = "" <;>
    by_cases h2 : JSNum.ltb (JSNum.finite 0)
      (parseIndianCurrency (cellAt g SHEET_ROWS.NET_WORTH p.1)) = true <;>
    simp [h1, h2, keepCol]

/-- C4: `extractNetWorthData` produces an entry only for a column whose
date-header cell is non-empty and whose net-worth cell parses strictly
positive (so every produced entry has positive `netWorth`); the produced
dates form a sublist of the date headers in column order (no reordering),
and the number of entries is at most the number of date-header columns.
The length hypothesis keeps the embedding on the grids the JavaScript code
accepts without throwing (all fixed rows exist). -/
theorem extractNetWorthData_column_policy (g : Grid) (_hg : 71 ≤ g.length) :
    (∀ e ∈ extractNetWorthData g,
        ∃ ci, (dateHeadersOf g).get? ci = some e.date ∧ e.date ≠ "" ∧
          e.netWorth = parseIndianCurrency (cellAt g SHEET_ROWS.NET_WORTH ci) ∧
          JSNum.ltb (JSNum.finite 0) e.netWorth = true) ∧
    List.Sublist ((extractNetWorthData g).map NetWorthEntry.date) (dateHeadersOf g) ∧
    (extractNetWorthData g).length ≤ (dateHeadersOf g).length := by
  have hsub : List.Sublist ((extractNetWorthData g).map NetWorthEntry.date) (dateHeadersOf g) := by
    rw [extractNetWorthData_map_date]
    have h1 := List.Sublist.map Prod.snd
      (List.filter_sublist (l := (dateHeadersOf g).enum) (p := keepCol g))
    rwa [List.enum_map_snd] at h1
  refine ⟨?_, hsub, ?_⟩
  · intro e he
    obtain ⟨ci, h1, h2, h3, h4, -⟩ := mem_extractNetWorthData he
    exact ⟨ci, h1, h2, h3, h4⟩
  · have := List.Sublist.length_le hsub
    simpa using this

/-- C4 witness: the theorem applied to the concrete `sampleGrid`. -/
theorem extractNetWorthData_column_policy_witness :
    71 ≤ sampleGrid.length ∧
      ((∀ e ∈ extractNetWorthData sampleGrid,
          ∃ ci, (dateHeadersOf sampleGrid).get? ci = some e.date ∧ e.date ≠ "" ∧
            e.netWorth = parseIndianCurrency (cellAt sampleGrid SHEET_ROWS.NET_WORTH ci) ∧
            JSNum.ltb (JSNum.finite 0) e.netWorth = true) ∧
        List.Sublist ((extractNetWorthData sampleGrid).map NetWorthEntry.date)
          (dateHeadersOf sampleGrid) ∧
        (extractNetWorthData sampleGrid).length ≤ (dateHeadersOf sampleGrid).length) :=
  ⟨by decide, extractNetWorthData_column_policy sampleGrid (by decide)⟩

/-- C5: every entry produced by `extractNetWorthData` has non-negative
`totalDebt` and `debt.subtotal`, every value of every debt item attached
to an entry is non-negative, and every value of every line item produced
by `extractDebts` is non-negative, whatever the sign of the source cells
(debt cells are passed through `Math.abs`). -/
theorem extraction_debt_nonneg (g : Grid) (_hg : 71 ≤ g.length) :
    (∀ e ∈ extractNetWorthData g,
        JSNum.leb (JSNum.finite 0) e.totalDebt = true ∧
        JSNum.leb (JSNum.finite 0) e.debt.subtotal = true ∧
        ∀ d ∈ e.debt.debts, ∀ v ∈ d.values, JSNum.leb (JSNum.finite 0) v = true) ∧
    (∀ d ∈ extractDebts g (dateHeadersOf g), ∀ v ∈ d.values,
        JSNum.leb (JSNum.finite 0) v = true) := by
  have habs : ∀ c : Option String,
      JSNum.leb (JSNum.finite 0) (JSNum.abs (parseIndianCurrency c)) = true :=
    fun c => JSNum.leb_zero_abs (parseIndianCurrency_ne_nan c)
  have hdebts : ∀ d ∈ extractDebts g (dateHeadersOf g), ∀ v ∈ d.values,
      JSNum.leb (JSNum.finite 0) v = true := by
    intro d hd v hv
    obtain ⟨c, hc⟩ := extractDebts_values hd v hv
    rw [hc]
    exact JSNum.leb_zero_abs (parseIndianCurrency_ne_nan c)
  refine ⟨?_, hdebts⟩
  intro e he
  obtain ⟨ci, -, -, -, -, htd, hsub, hitems⟩ := mem_extractNetWorthData he
  refine ⟨htd ▸ habs _, hsub ▸ habs _, ?_⟩
  intro d hd v hv
  rw [hitems] at hd
  simp only [List.mem_map] at hd
  obtain ⟨d0, hd0, rfl⟩ := hd
  simp only [List.mem_singleton] at hv
  subst hv
  rcases hget : d0.values[ci]? with _ | w
  · simp [List.getD_eq_getElem?_getD, hget, JSNum.leb]
  · have hw : w ∈ d0.values := List.getElem?_mem hget
    have := hdebts d0 hd0 w hw
    simpa [List.getD_eq_getElem?_getD, hget] using this

/-- C5 witness: the theorem applied to the concrete `sampleGrid`. -/
theorem extraction_debt_nonneg_witness :
    71 ≤ sampleGrid.length ∧
      ((∀ e ∈ extractNetWorthData sampleGrid,
          JSNum.leb (JSNum.finite 0) e.totalDebt = true ∧
          JSNum.leb (JSNum.finite 0) e.debt.subtotal = true ∧
          ∀ d ∈ e.debt.debts, ∀ v ∈ d.values, JSNum.leb (JSNum.finite 0) v = true) ∧
        (∀ d ∈ extractDebts sampleGrid (dateHeadersOf sampleGrid), ∀ v ∈ d.values,
            JSNum.leb (JSNum.finite 0) v = true)) :=
  ⟨by decide, extraction_debt_nonneg sampleGrid (by decide)⟩

/-- C9: the monthly-snapshot and full-history assembly modes produce the
same number of entries, for the same columns, agreeing entry by entry on
date, the four category subtotals, `totalAssets`, `totalDebt`, `netWorth`
and `monthOverMonthChange`; they can differ only in the item lists. -/
theorem extract_modes_agree (g : Grid) :
    (extractNetWorthData g).length = (extractNetWorthDataWithHistory g).length ∧
    (extractNetWorthData g).map summaryOf = (extractNetWorthDataWithHistory g).map summaryOf := by
  have hmap : (extractNetWorthData g).map summaryOf
      = (extractNetWorthDataWithHistory g).map summaryOf := by
    simp only [extractNetWorthData, extractNetWorthDataWithHistory]
    rw [List.map_filterMap, List.map_filterMap]
    apply List.filterMap_congr
    intro p _
    by_cases h1 : p.2 = "" <;>
      by_cases h2 : JSNum.ltb (JSNum.finite 0)
        (parseIndianCurrency (cellAt g SHEET_ROWS.NET_WORTH p.1)) = true <;>
      simp [h1, h2, summaryOf]
  refine ⟨?_, hmap⟩
  have := congrArg List.length hmap
  simpa using this

/-- C1 counterexample: on a two-entry series whose first net worth is `0`,
`calculateGrowthRate` returns `Infinity` (not `0`; the division by zero is
performed) and `calculateTotalGrowth` returns `100` (not `0`). -/
theorem growth_zero_first_counterexample :
    (zeroFirstSeries.headD dummyEntry).netWorth = JSNum.finite 0 ∧
    2 ≤ zeroFirstSeries.length ∧
    calculateGrowthRate zeroFirstSeries = JSNum.pinf ∧
    calculateGrowthRate zeroFirstSeries ≠ JSNum.finite 0 ∧
    calculateTotalGrowth zeroFirstSeries = JSNum.finite 100 ∧
    calculateTotalGrowth zeroFirstSeries ≠ JSNum.finite 0 := by
  refine ⟨rfl, by norm_num [zeroFirstSeries], by with_unfolding_all rfl,
    by with_unfolding_all decide, by with_unfolding_all rfl, by with_unfolding_all decide⟩

/-- C1 (amended): for fewer than 2 entries both functions return `0`; with
at least 2 entries and a finite, non-zero first net worth the growth rate
is the finite value `(last − first) / first × 100` (no NaN/Infinity) and
the total growth is `last − first`.  The `first == 0` guard claimed by the
spec does not exist in the code. -/
theorem growth_guard_amended :
    (∀ data : List NetWorthEntry, data.length < 2 →
        calculateGrowthRate data = JSNum.finite 0 ∧
        calculateTotalGrowth data = JSNum.finite 0) ∧
    (∀ (data : List NetWorthEntry) (p q : ℚ), 2 ≤ data.length →
        (data.headD dummyEntry).netWorth = JSNum.finite p →
        (data.getLastD dummyEntry).netWorth = JSNum.finite q →
        p ≠ 0 →
        calculateGrowthRate data = JSNum.finite ((q - p) / p * 100) ∧
        calculateTotalGrowth data = JSNum.finite (q - p)) := by
  constructor
  · intro data h
    exact ⟨by simp [calculateGrowthRate, h], by simp [calculateTotalGrowth, h]⟩
  · intro data p q hlen hp hq hp0
    have hnlt : ¬ data.length < 2 := not_lt.mpr hlen
    constructor
    · simp only [calculateGrowthRate, if_neg hnlt, hp, hq, JSNum.sub, JSNum.div, if_neg hp0,
        JSNum.mul]
    · simp only [calculateTotalGrowth, if_neg hnlt, hp, hq, JSNum.sub]

/-- C1 witness: the amended theorem applied to an empty series and to a
concrete two-entry series with net worths 100 and 150. -/
theorem growth_guard_amended_witness :
    (calculateGrowthRate [] = JSNum.finite 0 ∧ calculateTotalGrowth [] = JSNum.finite 0) ∧
    (calculateGrowthRate [entryWithNetWorth (JSNum.finite 100), entryWithNetWorth (JSNum.finite 150)]
        = JSNum.finite ((150 - 100) / 100 * 100) ∧
      calculateTotalGrowth [entryWithNetWorth (JSNum.finite 100), entryWithNetWorth (JSNum.finite 150)]
        = JSNum.finite (150 - 100)) :=
  ⟨growth_guard_amended.1 [] (by decide),
    growth_guard_amended.2
      [entryWithNetWorth (JSNum.finite 100), entryWithNetWorth (JSNum.finite 150)]
      100 150 (by decide) rfl rfl (by decide)⟩

/-- Multiplying a zero-denominator division by 100 always yields NaN or an
infinity, never a finite value. -/
theorem nonFinite_mul100_div_zero (x : JSNum) :
    JSNum.nonFinite (JSNum.mul (JSNum.div x (JSNum.finite 0)) (JSNum.finite 100)) := by
  cases x <;>
    simp only [JSNum.div, JSNum.mul, JSNum.nonFinite] <;>
    split_ifs <;>
    trivial

/-- C3 counterexample: on an entry whose `totalAssets` is `0` (with zero
subtotals), the utils `calculateAssetAllocation` returns NaN for every
category, not `0`. -/
theorem assetAllocation_zero_counterexample :
    dummyEntry.totalAssets = JSNum.finite 0 ∧
    (calculateAssetAllocation dummyEntry).bankAccounts = JSNum.nan ∧
    (calculateAssetAllocation dummyEntry).investments = JSNum.nan ∧
    (calculateAssetAllocation dummyEntry).otherAssets = JSNum.nan ∧
    (calculateAssetAllocation dummyEntry).bankAccounts ≠ JSNum.finite 0 := by
  refine ⟨rfl, by with_unfolding_all rfl, by with_unfolding_all rfl,
    by with_unfolding_all rfl, by with_unfolding_all decide⟩

/-- C3 (amended): with a finite non-zero `totalAssets` and finite subtotals
each category percentage is `subtotal / totalAssets × 100`; when
`totalAssets == 0` the utils version yields a non-finite value (NaN or an
infinity) for every category — never `0` — while the analytics-module
variant returns the empty allocation list. -/
theorem assetAllocation_amended :
    (∀ (e : NetWorthEntry) (t b i o : ℚ), e.totalAssets = JSNum.finite t → t ≠ 0 →
        e.bankAccounts.subtotal = JSNum.finite b →
        e.investments.subtotal = JSNum.finite i →
        e.otherAssets.subtotal = JSNum.finite o →
        calculateAssetAllocation e =
          { bankAccounts := JSNum.finite (b / t * 100)
            investments := JSNum.finite (i / t * 100)
            otherAssets := JSNum.finite (o / t * 100) }) ∧
    (∀ e : NetWorthEntry, e.totalAssets = JSNum.finite 0 →
        analyticsCalculateAssetAllocation e = [] ∧
        JSNum.nonFinite ((calculateAssetAllocation e).bankAccounts) ∧
        JSNum.nonFinite ((calculateAssetAllocation e).investments) ∧
        JSNum.nonFinite ((calculateAssetAllocation e).otherAssets)) := by
  constructor
  · intro e t b i o ht ht0 hb hi ho
    simp only [calculateAssetAllocation, ht, hb, hi, ho, JSNum.div, if_neg ht0, JSNum.mul]
  · intro e ht
    refine ⟨by simp [analyticsCalculateAssetAllocation, ht], ?_, ?_, ?_⟩ <;>
      · simp only [calculateAssetAllocation, ht]
        exact nonFinite_mul100_div_zero _

/-- C3 witness: the amended theorem applied to a concrete entry with
subtotals 50/100/50 over total assets 200, and to `dummyEntry` for the
zero-total branch. -/
theorem assetAllocation_amended_witness :
    (calculateAssetAllocation
        { dummyEntry with
            totalAssets := JSNum.finite 200
            bankAccounts := { accounts := [], subtotal := JSNum.finite 50 }
            investments := { accounts := [], subtotal := JSNum.finite 100 }
            otherAssets := { assets := [], subtotal := JSNum.finite 50 } } =
      { bankAccounts := JSNum.finite (50 / 200 * 100)
        investments := JSNum.finite (100 / 200 * 100)
        otherAssets := JSNum.finite (50 / 200 * 100) }) ∧
    (analyticsCalculateAssetAllocation dummyEntry = [] ∧
      JSNum.nonFinite ((calculateAssetAllocation dummyEntry).bankAccounts) ∧
      JSNum.nonFinite ((calculateAssetAllocation dummyEntry).investments) ∧
      JSNum.nonFinite ((calculateAssetAllocation dummyEntry).otherAssets)) :=
  ⟨assetAllocation_amended.1 _ 200 50 100 50 rfl (by decide) rfl rfl rfl,
    assetAllocation_amended.2 dummyEntry rfl⟩

/-- C7: `filterDataByPeriod` returns the input unchanged for `all` (and for
an empty input); each named period keeps exactly the trailing 1, 3 or 6
entries (the whole series when shorter), expressed as `drop (length − n)`;
and every result is a suffix of the input, so entries are never modified
or reordered and no summary field is re-derived. -/
theorem filterDataByPeriod_spec (data : List NetWorthEntry) :
    filterDataByPeriod data TimePeriod.all = data ∧
    filterDataByPeriod data TimePeriod.oneMonth = data.drop (data.length - 1) ∧
    filterDataByPeriod data TimePeriod.threeMonths = data.drop (data.length - 3) ∧
    filterDataByPeriod data TimePeriod.sixMonths = data.drop (data.length - 6) ∧
    ∀ period, List.IsSuffix (filterDataByPeriod data period) data := by
  have hall : filterDataByPeriod data TimePeriod.all = data := by
    simp [filterDataByPeriod]
  have hdrop : ∀ period, period ≠ TimePeriod.all →
      filterDataByPeriod data period
        = data.drop (data.length -
            (match period with
              | TimePeriod.oneMonth => 1
              | TimePeriod.threeMonths => 3
              | TimePeriod.sixMonths => 6
              | TimePeriod.all => data.length)) := by
    intro period hperiod
    by_cases hlen : data.length = 0
    · have hnil : data = [] := List.length_eq_zero.mp hlen
      subst hnil
      simp [filterDataByPeriod]
    · simp [filterDataByPeriod, hperiod, hlen]
  refine ⟨hall, hdrop TimePeriod.oneMonth (by decide), hdrop TimePeriod.threeMonths (by decide),
    hdrop TimePeriod.sixMonths (by decide), ?_⟩
  intro period
  cases period with
  | all => exact hall ▸ List.suffix_refl data
  | oneMonth => exact hdrop TimePeriod.oneMonth (by decide) ▸ List.drop_suffix _ _
  | threeMonths => exact hdrop TimePeriod.threeMonths (by decide) ▸ List.drop_suffix _ _
  | sixMonths => exact hdrop TimePeriod.sixMonths (by decide) ▸ List.drop_suffix _ _

/-- Summing finite JavaScript numbers by `reduce` agrees with the exact
rational sum. -/
theorem foldl_add_finite :
    ∀ (invs : List DetailedInvestment) (qs : List ℚ),
      invs.map DetailedInvestment.currentValue = qs.map JSNum.finite →
      ∀ a : ℚ,
        invs.foldl (fun sum inv => JSNum.add sum inv.currentValue) (JSNum.finite a)
          = JSNum.finite (a + qs.sum)
  | [], qs, h => by
      intro a
      cases qs with
      | nil => simp
      | cons q qs' => simp at h
  | inv :: invs, qs, h => by
      intro a
      cases qs with
      | nil => simp at h
      | cons q qs' =>
          simp only [List.map_cons, List.cons.injEq] at h
          obtain ⟨hq, hrest⟩ := h
          simp only [List.foldl_cons, hq]
          rw [show JSNum.add (JSNum.finite a) (JSNum.finite q) = JSNum.finite (a + q) from rfl,
            foldl_add_finite invs qs' hrest (a + q)]
          simp [add_assoc]

/-- The HHI `reduce` over finite current values and a finite non-zero
total agrees with the exact rational sum of squared percentage shares. -/
theorem foldl_hhi_finite (t : ℚ) (ht : t ≠ 0) :
    ∀ (invs : List DetailedInvestment) (qs : List ℚ),
      invs.map DetailedInvestment.currentValue = qs.map JSNum.finite →
      ∀ a : ℚ,
        invs.foldl
            (fun sum inv =>
              JSNum.add sum
                (JSNum.sq (JSNum.mul (JSNum.div inv.currentValue (JSNum.finite t))
                  (JSNum.finite 100))))
            (JSNum.finite a)
          = JSNum.finite (a + (qs.map fun v => (v / t * 100) ^ 2).sum)
  | [], qs, h => by
      intro a
      cases qs with
      | nil => simp
      | cons q qs' => simp at h
  | inv :: invs, qs, h => by
      intro a
      cases qs with
      | nil => simp at h
      | cons q qs' =>
          simp only [List.map_cons, List.cons.injEq] at h
          obtain ⟨hq, hrest⟩ := h
          simp only [List.foldl_cons, hq]
          rw [show JSNum.add (JSNum.finite a)
                (JSNum.sq (JSNum.mul (JSNum.div (JSNum.finite q) (JSNum.finite t))
                  (JSNum.finite 100)))
              = JSNum.finite (a + (q / t * 100) ^ 2) by
            simp [JSNum.div, JSNum.mul, JSNum.sq, JSNum.add, ht]]
          rw [foldl_hhi_finite t ht invs qs' hrest (a + (q / t * 100) ^ 2)]
          simp [add_assoc]

/-- C8 counterexample: a single investment whose current value is
`Infinity` (as `parseFloat` yields from an `"Infinity"` cell, and the
`> 0` extraction filters keep) has positive total current value, yet
`calculateDiversificationScore` computes `Infinity / Infinity = NaN` for
its share and returns NaN: the score is not within `[0, 100]` and the
single-instrument portfolio does not score `0`. -/
theorem diversificationScore_infinity_counterexample :
    JSNum.ltb (JSNum.finite 0)
        (totalCurrentValue [{ name := "Gold", currentValue := JSNum.pinf }]) = true ∧
    calculateDiversificationScore [{ name := "Gold", currentValue := JSNum.pinf }]
      = JSNum.nan ∧
    JSNum.leb (JSNum.finite 0)
        (calculateDiversificationScore [{ name := "Gold", currentValue := JSNum.pinf }]) = false ∧
    JSNum.leb
        (calculateDiversificationScore [{ name := "Gold", currentValue := JSNum.pinf }])
        (JSNum.finite 100) = false ∧
    calculateDiversificationScore [{ name := "Gold", currentValue := JSNum.pinf }]
      ≠ JSNum.finite 0 :=
  ⟨by with_unfolding_all rfl, by with_unfolding_all rfl, by with_unfolding_all rfl,
    by with_unfolding_all rfl, by with_unfolding_all decide⟩

/-- C8 (amended): for a non-empty investment list whose current values are
all finite and whose total current value is positive, the diversification
score is the finite value `100 − HHI/10000×100` (HHI the sum of squared
percentage shares), rounded to one decimal and clamped to `[0, 100]`; for
every all-finite investment list the score is a finite value in
`[0, 100]`; and a single-instrument portfolio with a finite current value
scores exactly `0`.  (With a non-finite current value, reachable from an
`"Infinity"` cell, the function instead returns NaN — see the
counterexample.) -/
theorem diversificationScore_amended :
    (∀ (investments : List DetailedInvestment) (qs : List ℚ),
        investments.map DetailedInvestment.currentValue = qs.map JSNum.finite →
        investments ≠ [] → 0 < qs.sum →
        calculateDiversificationScore investments
          = JSNum.finite
              (max 0 (min 100 (jsRound ((100 - hhiSpecQ qs / 10000 * 100) * 10) / 10)))) ∧
    (∀ (investments : List DetailedInvestment) (qs : List ℚ),
        investments.map DetailedInvestment.currentValue = qs.map JSNum.finite →
        ∃ r : ℚ, calculateDiversificationScore investments = JSNum.finite r ∧
          0 ≤ r ∧ r ≤ 100) ∧
    (∀ (inv : DetailedInvestment) (q : ℚ), inv.currentValue = JSNum.finite q →
        calculateDiversificationScore [inv] = JSNum.finite 0) := by
  have main : ∀ (invs : List DetailedInvestment) (qs : List ℚ),
      invs.map DetailedInvestment.currentValue = qs.map JSNum.finite →
      invs.length ≠ 0 → qs.sum ≠ 0 →
      calculateDiversificationScore invs
        = JSNum.finite
            (max 0 (min 100 (jsRound ((100 - hhiSpecQ qs / 10000 * 100) * 10) / 10))) := by
    intro invs qs hmap hlen hsum
    have htot : totalCurrentValue invs = JSNum.finite qs.sum := by
      simpa [totalCurrentValue] using foldl_add_finite invs qs hmap 0
    have hhhi := foldl_hhi_finite qs.sum hsum invs qs hmap 0
    simp only [calculateDiversificationScore, htot, if_neg hlen]
    rw [if_neg (by simpa using hsum), hhhi]
    simp only [JSNum.div, JSNum.mul, JSNum.sub, JSNum.roundJS, JSNum.minJS, JSNum.maxJS]
    norm_num [hhiSpecQ, jsRound]
  refine ⟨?_, ?_, ?_⟩
  · intro invs qs hmap hne hpos
    exact main invs qs hmap (by simpa using hne) (ne_of_gt hpos)
  · intro invs qs hmap
    by_cases hlen : invs.length = 0
    · exact ⟨0, by simp [calculateDiversificationScore, hlen], le_refl 0, by norm_num⟩
    · by_cases hsum : qs.sum = 0
      · have htot : totalCurrentValue invs = JSNum.finite 0 := by
          simpa [totalCurrentValue, hsum] using foldl_add_finite invs qs hmap 0
        exact ⟨0, by simp [calculateDiversificationScore, hlen, htot], le_refl 0, by norm_num⟩
      · exact ⟨max 0 (min 100 (jsRound ((100 - hhiSpecQ qs / 10000 * 100) * 10) / 10)),
          main invs qs hmap hlen hsum, le_max_left 0 _,
          max_le (by norm_num) (min_le_left _ _)⟩
  · intro inv q hq
    by_cases h : q = 0
    · subst h
      have htot : totalCurrentValue [inv] = JSNum.finite 0 := by
        simp [totalCurrentValue, hq, JSNum.add]
      simp [calculateDiversificationScore, htot]
    · have h1 := main [inv] [q] (by simp [hq]) (by simp) (by simpa using h)
      rw [h1]
      have hh : hhiSpecQ [q] = 10000 := by
        simp only [hhiSpecQ, List.map_cons, List.map_nil, List.sum_cons, List.sum_nil,
          add_zero]
        rw [div_self h]
        norm_num
      rw [hh]
      norm_num [jsRound]

/-- C8 witness: the amended theorem applied to a concrete two-instrument
portfolio with equal finite holdings, and to a single finite-valued
instrument. -/
theorem diversificationScore_amended_witness :
    (calculateDiversificationScore
        [{ name := "A", currentValue := JSNum.finite 50 },
         { name := "B", currentValue := JSNum.finite 50 }]
      = JSNum.finite
          (max 0 (min 100 (jsRound ((100 - hhiSpecQ [50, 50] / 10000 * 100) * 10) / 10)))) ∧
    (∃ r : ℚ,
        calculateDiversificationScore
            [{ name := "A", currentValue := JSNum.finite 50 },
             { name := "B", currentValue := JSNum.finite 50 }]
          = JSNum.finite r ∧ 0 ≤ r ∧ r ≤ 100) ∧
    calculateDiversificationScore [{ name := "C", currentValue := JSNum.finite 7 }]
      = JSNum.finite 0 :=
  ⟨diversificationScore_amended.1
      [{ name := "A", currentValue := JSNum.finite 50 },
       { name := "B", currentValue := JSNum.finite 50 }] [50, 50] rfl (by simp)
      (by norm_num [List.sum_cons, List.sum_nil]),
    diversificationScore_amended.2.1
      [{ name := "A", currentValue := JSNum.finite 50 },
       { name := "B", currentValue := JSNum.finite 50 }] [50, 50] rfl,
    diversificationScore_amended.2.2 { name := "C", currentValue := JSNum.finite 7 } 7 rfl⟩

/-- C6: `parseIndianCurrency` maps the empty string, `undefined` and the
literal `"₹0"` to `0`; parses `"₹2,20,000"` to `220000` and
`"-₹3,264,441"` to `-3264441` (currency symbol, commas and quotes
stripped, leading minus preserved); and maps any cell whose cleaned form
fails numeric parsing (NaN) to `0` instead of raising an error. -/
theorem parseAmount_zero_and_format :
    parseIndianCurrency none = JSNum.finite 0 ∧
    parseIndianCurrency (some "") = JSNum.finite 0 ∧
    parseIndianCurrency (some "₹0") = JSNum.finite 0 ∧
    parseIndianCurrency (some "₹2,20,000") = JSNum.finite 220000 ∧
    parseIndianCurrency (some "-₹3,264,441") = JSNum.finite (-3264441) ∧
    ∀ s : String, jsParseFloat (cleanCurrency s) = none →
      parseIndianCurrency (some s) = JSNum.finite 0 := by
  refine ⟨rfl, by with_unfolding_all rfl, by with_unfolding_all rfl,
    by with_unfolding_all rfl, by with_unfolding_all rfl, ?_⟩
  intro s hs
  by_cases h : s = "" ∨ s = "₹0"
  · simp [parseIndianCurrency, h]
  · simp [parseIndianCurrency, h, hs]

/-- C6 witness: the NaN-to-0 conjunct applied to the unparsable cell
`"abc"`. -/
theorem parseAmount_zero_and_format_witness :
    jsParseFloat (cleanCurrency "abc") = none ∧
    parseIndianCurrency (some "abc") = JSNum.finite 0 :=
  ⟨by with_unfolding_all rfl,
    parseAmount_zero_and_format.2.2.2.2.2 "abc" (by with_unfolding_all rfl)⟩

/-- C10: a cell whose cleaned form begins with a valid decimal-number
prefix — optional sign, integer digits, optional decimal point with
fraction digits, optional exponent — followed by trailing non-numeric
characters that cannot extend the number parses to the decimal value of
that prefix, not to `0`: partially malformed cells are not parse
failures. -/
theorem parseIndianCurrency_numeric_lead (s : String) (sign : Option Char)
    (intDs fracDs : List Char) (dot : Bool)
    (ex : Option (Char × Option Char × List Char)) (r0 : Char) (rtl : List Char)
    (hsplit : (cleanCurrency s).data = literalChars sign intDs fracDs dot ex ++ (r0 :: rtl))
    (hsign : sign = none ∨ sign = some '+' ∨ sign = some '-')
    (hint : ∀ c ∈ intDs, c.isDigit = true)
    (hfrac : ∀ c ∈ fracDs, c.isDigit = true)
    (hmant : intDs ≠ [] ∨ fracDs ≠ [])
    (hdotfrac : dot = false → fracDs = [])
    (hex : ∀ mark esign eds, ex = some (mark, esign, eds) →
        (mark = 'e' ∨ mark = 'E') ∧ (esign = none ∨ esign = some '+' ∨ esign = some '-') ∧
          eds ≠ [] ∧ ∀ c ∈ eds, c.isDigit = true)
    (hjunk0 : r0.isDigit = false)
    (hjunkdot : ex = none → r0 = '.' → dot = true)
    (hjunkexp : ex = none → (r0 = 'e' ∨ r0 = 'E') → noExpStart rtl) :
    parseIndianCurrency (some s)
      = JSNum.finite (decimalValue (decide (sign = some '-')) intDs fracDs (expValOf ex)) := by
  have hparse := jsParseFloat_number_lead (cleanCurrency s) sign intDs fracDs dot ex r0 rtl
    hsplit hsign hint hfrac hmant hdotfrac hex hjunk0 hjunkdot hjunkexp
  have hlen : 2 ≤ (literalChars sign intDs fracDs dot ex ++ (r0 :: rtl)).length := by
    have h2 : 1 ≤ (literalChars sign intDs fracDs dot ex).length := by
      rcases hmant with h | h
      · have h3 := List.length_pos.mpr h
        simp only [literalChars, List.length_append]
        omega
      · have h3 := List.length_pos.mpr h
        have hd : dot = true := by
          cases dot
          · exact absurd (hdotfrac rfl) h
          · rfl
        subst hd
        have h4 : (literalChars sign intDs fracDs true ex).length
            = sign.toList.length + intDs.length + (fracDs.length + 1) + (expChars ex).length := by
          simp [literalChars, List.length_append]
          omega
        omega
    simp only [List.length_append, List.length_cons]
    omega
  have hs1 : s ≠ "" := by
    intro h
    subst h
    rw [(by with_unfolding_all rfl : (cleanCurrency "").data = ([] : List Char))] at hsplit
    have h0 := congrArg List.length hsplit
    simp only [List.length_nil] at h0
    omega
  have hs2 : s ≠ "₹0" := by
    intro h
    subst h
    rw [(by with_unfolding_all rfl : (cleanCurrency "₹0").data = ['0'])] at hsplit
    have h0 := congrArg List.length hsplit
    simp only [List.length_singleton] at h0
    omega
  simp only [parseIndianCurrency]
  rw [if_neg (by simp [hs1, hs2]), hparse]

/-- C10 witness: the theorem applied to the cells `"-₹3abc"` (a signed
integer prefix), `"₹1.5x"` (a fractional prefix) and `"₹12e!"` (junk
starting with an exponent marker that no digit follows); each parses to
its numeric prefix value. -/
theorem parseIndianCurrency_numeric_lead_witness :
    parseIndianCurrency (some "-₹3abc") = JSNum.finite (-3) ∧
    parseIndianCurrency (some "₹1.5x") = JSNum.finite (3 / 2) ∧
    parseIndianCurrency (some "₹12e!") = JSNum.finite 12 :=
  ⟨(parseIndianCurrency_numeric_lead "-₹3abc" (some '-') ['3'] [] false none 'a' ['b', 'c']
      (by with_unfolding_all rfl) (by decide) (by decide) (by decide) (by decide) (by decide)
      (fun _ _ _ h => Option.noConfusion h) (by decide) (by decide)
      (fun _ h => absurd h (by decide))).trans
    (by with_unfolding_all rfl),
   (parseIndianCurrency_numeric_lead "₹1.5x" none ['1'] ['5'] true none 'x' []
      (by with_unfolding_all rfl) (by decide) (by decide) (by decide) (by decide) (by decide)
      (fun _ _ _ h => Option.noConfusion h) (by decide) (by decide)
      (fun _ h => absurd h (by decide))).trans
    (by with_unfolding_all rfl),
   (parseIndianCurrency_numeric_lead "₹12e!" none ['1', '2'] [] false none 'e' ['!']
      (by with_unfolding_all rfl) (by decide) (by decide) (by decide) (by decide) (by decide)
      (fun _ _ _ h => Option.noConfusion h) (by decide) (by decide)
      (fun _ _ => by with_unfolding_all rfl)).trans
    (by with_unfolding_all rfl)⟩

theorem JSNum.orZero_ne_nan (v : Option JSNum) : JSNum.orZero v ≠ JSNum.nan := by
  rcases v with _ | w
  · simp [JSNum.orZero]
  · cases w <;> simp [JSNum.orZero]

theorem foldl_max_eq_argmax {α β : Type} [LinearOrder β] (f : α → β) (x : α) (xs : List α) :
    List.argmax f (x :: xs)
      = some (xs.foldl (fun acc cur => if f acc < f cur then cur else acc) x) := by
  have h : ∀ (l : List α) (a : α),
      l.foldl (List.argAux fun b c => f c < f b) (some a)
        = some (l.foldl (fun acc cur => if f acc < f cur then cur else acc) a) := by
    intro l
    induction l with
    | nil => intro a; rfl
    | cons y ys ih =>
        intro a
        simp only [List.foldl_cons]
        have hstep : List.argAux (fun b c => f c < f b) (some a) y
            = some (if f a < f y then y else a) := by
          simp only [List.argAux]
          exact (apply_ite some (f a < f y) y a).symm
        rw [hstep, ih]
  unfold List.argmax
  rw [List.foldl_cons]
  exact h xs x

theorem foldl_min_eq_argmin {α β : Type} [LinearOrder β] (f : α → β) (x : α) (xs : List α) :
    List.argmin f (x :: xs)
      = some (xs.foldl (fun acc cur => if f cur < f acc then cur else acc) x) := by
  have h : ∀ (l : List α) (a : α),
      l.foldl (List.argAux fun b c => f b < f c) (some a)
        = some (l.foldl (fun acc cur => if f cur < f acc then cur else acc) a) := by
    intro l
    induction l with
    | nil => intro a; rfl
    | cons y ys ih =>
        intro a
        simp only [List.foldl_cons]
        have hstep : List.argAux (fun b c => f b < f c) (some a) y
            = some (if f y < f a then y else a) := by
          simp only [List.argAux]
          exact (apply_ite some (f y < f a) y a).symm
        rw [hstep, ih]
  unfold List.argmin
  rw [List.foldl_cons]
  exact h xs x

theorem foldl_ltb_eq_key_max {α : Type} (change : α → JSNum) :
    ∀ (xs : List α) (x : α), (∀ a ∈ x :: xs, change a ≠ JSNum.nan) →
      xs.foldl (fun acc cur => if JSNum.ltb (change acc) (change cur) then cur else acc) x
        = xs.foldl (fun acc cur =>
            if JSNum.key (change acc) < JSNum.key (change cur) then cur else acc) x
  | [], _, _ => rfl
  | y :: ys, x, h => by
      have hx : change x ≠ JSNum.nan := h x (by simp)
      have hy : change y ≠ JSNum.nan := h y (by simp)
      have hstep : (if JSNum.ltb (change x) (change y) then y else x)
          = (if JSNum.key (change x) < JSNum.key (change y) then y else x) := by
        by_cases hc : JSNum.ltb (change x) (change y) = true
        · rw [if_pos hc, if_pos ((JSNum.ltb_eq_key_lt hx hy).mp hc)]
        · rw [if_neg hc, if_neg fun hh => hc ((JSNum.ltb_eq_key_lt hx hy).mpr hh)]
      simp only [List.foldl_cons]
      rw [hstep]
      refine foldl_ltb_eq_key_max change ys _ ?_
      intro a ha
      rcases List.mem_cons.mp ha with rfl | ha'
      · split_ifs
        · exact hy
        · exact hx
      · exact h a (List.mem_cons_of_mem _ (List.mem_cons_of_mem _ ha'))

theorem foldl_ltb_eq_key_min {α : Type} (change : α → JSNum) :
    ∀ (xs : List α) (x : α), (∀ a ∈ x :: xs, change a ≠ JSNum.nan) →
      xs.foldl (fun acc cur => if JSNum.ltb (change cur) (change acc) then cur else acc) x
        = xs.foldl (fun acc cur =>
            if JSNum.key (change cur) < JSNum.key (change acc) then cur else acc) x
  | [], _, _ => rfl
  | y :: ys, x, h => by
      have hx : change x ≠ JSNum.nan := h x (by simp)
      have hy : change y ≠ JSNum.nan := h y (by simp)
      have hstep : (if JSNum.ltb (change y) (change x) then y else x)
          = (if JSNum.key (change y) < JSNum.key (change x) then y else x) := by
        by_cases hc : JSNum.ltb (change y) (change x) = true
        · rw [if_pos hc, if_pos ((JSNum.ltb_eq_key_lt hy hx).mp hc)]
        · rw [if_neg hc, if_neg fun hh => hc ((JSNum.ltb_eq_key_lt hy hx).mpr hh)]
      simp only [List.foldl_cons]
      rw [hstep]
      refine foldl_ltb_eq_key_min change ys _ ?_
      intro a ha
      rcases List.mem_cons.mp ha with rfl | ha'
      · split_ifs
        · exact hy
        · exact hx
      · exact h a (List.mem_cons_of_mem _ (List.mem_cons_of_mem _ ha'))

/-- Specification of the best-month reduction: the result is an element of
the list, its change is maximal under the JS order, and it is the first
element attaining the maximum. -/
theorem reduce_best_spec {α : Type} [DecidableEq α] (change : α → JSNum) (x : α) (xs : List α)
    (hnn : ∀ a ∈ x :: xs, change a ≠ JSNum.nan) (best : α)
    (hbest : best
      = xs.foldl (fun acc cur => if JSNum.ltb (change acc) (change cur) then cur else acc) x) :
    best ∈ x :: xs ∧
    (∀ a ∈ x :: xs, JSNum.key (change a) ≤ JSNum.key (change best)) ∧
    ∀ a ∈ x :: xs, JSNum.key (change best) ≤ JSNum.key (change a) →
      (x :: xs).indexOf best ≤ (x :: xs).indexOf a := by
  have hkey := foldl_ltb_eq_key_max change xs x hnn
  have harg : List.argmax (fun a => JSNum.key (change a)) (x :: xs) = some best := by
    rw [foldl_max_eq_argmax (fun a => JSNum.key (change a)) x xs, hbest, hkey]
  have hmem : best ∈ List.argmax (fun a => JSNum.key (change a)) (x :: xs) :=
    Option.mem_def.mpr harg
  exact ⟨List.argmax_mem hmem,
    fun a ha => List.le_of_mem_argmax (f := fun b => JSNum.key (change b)) ha hmem,
    fun a ha hle => List.index_of_argmax (f := fun b => JSNum.key (change b)) hmem ha hle⟩

/-- Specification of the worst-month reduction, dually. -/
theorem reduce_worst_spec {α : Type} [DecidableEq α] (change : α → JSNum) (x : α) (xs : List α)
    (hnn : ∀ a ∈ x :: xs, change a ≠ JSNum.nan) (worst : α)
    (hworst : worst
      = xs.foldl (fun acc cur => if JSNum.ltb (change cur) (change acc) then cur else acc) x) :
    worst ∈ x :: xs ∧
    (∀ a ∈ x :: xs, JSNum.key (change worst) ≤ JSNum.key (change a)) ∧
    ∀ a ∈ x :: xs, JSNum.key (change a) ≤ JSNum.key (change worst) →
      (x :: xs).indexOf worst ≤ (x :: xs).indexOf a := by
  have hkey := foldl_ltb_eq_key_min change xs x hnn
  have harg : List.argmin (fun a => JSNum.key (change a)) (x :: xs) = some worst := by
    rw [foldl_min_eq_argmin (fun a => JSNum.key (change a)) x xs, hworst, hkey]
  have hmem : worst ∈ List.argmin (fun a => JSNum.key (change a)) (x :: xs) :=
    Option.mem_def.mpr harg
  exact ⟨List.argmin_mem hmem,
    fun a ha => List.le_of_mem_argmin (f := fun b => JSNum.key (change b)) ha hmem,
    fun a ha hle => List.index_of_argmin (f := fun b => JSNum.key (change b)) hmem ha hle⟩

theorem validChangesA_ne_nan (entries : List NetWorthEntry) :
    ∀ x ∈ validChangesA entries, x.change ≠ JSNum.nan := by
  intro x hx
  simp only [validChangesA, List.mem_filter, List.mem_map] at hx
  obtain ⟨⟨p, -, rfl⟩, -⟩ := hx
  exact JSNum.orZero_ne_nan _

theorem validChangesU_ne_nan (entries : List NetWorthEntry) :
    ∀ x ∈ validChangesU entries, x.change ≠ JSNum.nan := by
  intro x hx
  simp only [validChangesU, List.mem_filter, List.mem_map] at hx
  obtain ⟨⟨p, -, rfl⟩, -⟩ := hx
  exact JSNum.orZero_ne_nan _

theorem validChangesA_eq_nil (entries : List NetWorthEntry)
    (h : ∀ e ∈ entries, JSNum.orZero e.monthOverMonthChange = JSNum.finite 0) :
    validChangesA entries = [] := by
  simp only [validChangesA]
  rw [List.filter_eq_nil_iff]
  intro a ha
  simp only [List.mem_map] at ha
  obtain ⟨p, hp, rfl⟩ := ha
  simp [h p.2 (List.snd_mem_of_mem_enum hp)]

theorem validChangesU_eq_nil (entries : List NetWorthEntry)
    (h : ∀ e ∈ entries, JSNum.orZero e.monthOverMonthChange = JSNum.finite 0) :
    validChangesU entries = [] := by
  simp only [validChangesU]
  rw [List.filter_eq_nil_iff]
  intro a ha
  simp only [List.mem_map] at ha
  obtain ⟨p, hp, rfl⟩ := ha
  simp [h p.2 (List.snd_mem_of_mem_enum hp)]

/-- C2 counterexample: on the empty entry sequence (every entry trivially
has zero `monthOverMonthChange`) the utils-module `getPerformanceHighlights`
does not return a zeroed default: its unguarded `reduce` calls have no
value to start from (a thrown `TypeError`, modelled as `none`). -/
theorem getPerformanceHighlights_empty_counterexample :
    getPerformanceHighlights [] = none := rfl

/-- C2 (amended): (1) when no entry has a non-zero `monthOverMonthChange`
(including the empty sequence) the analytics-module version returns the
zeroed default highlights while the utils-module version fails (`none`);
(2) entries whose change is exactly `0` are excluded from `validChanges`
(whose changes are also never NaN); (3) on a non-empty `validChanges` the
analytics version picks best and worst by linear reduction, first
occurrence winning ties; (4) the utils version fails exactly on an empty
`validChanges`, and otherwise it picks best and worst by the same linear
reductions — extremal over `validChanges`, first occurrence winning
ties. -/
theorem performanceHighlights_amended :
    (∀ entries : List NetWorthEntry,
        (∀ e ∈ entries, JSNum.orZero e.monthOverMonthChange = JSNum.finite 0) →
        getPerformanceHighlights entries = none ∧
        analyticsGetPerformanceHighlights entries =
          { bestMonth := { date := "", change := JSNum.finite 0, index := none }
            worstMonth := { date := "", change := JSNum.finite 0, index := none } }) ∧
    (∀ entries : List NetWorthEntry, ∀ x ∈ validChangesA entries,
        x.change ≠ JSNum.finite 0 ∧ x.change ≠ JSNum.nan) ∧
    (∀ entries : List NetWorthEntry, validChangesA entries ≠ [] →
        (analyticsGetPerformanceHighlights entries).bestMonth ∈ validChangesA entries ∧
        (analyticsGetPerformanceHighlights entries).worstMonth ∈ validChangesA entries ∧
        (∀ x ∈ validChangesA entries,
            JSNum.key x.change
                ≤ JSNum.key (analyticsGetPerformanceHighlights entries).bestMonth.change ∧
            JSNum.key (analyticsGetPerformanceHighlights entries).worstMonth.change
                ≤ JSNum.key x.change) ∧
        (∀ x ∈ validChangesA entries,
            (JSNum.key (analyticsGetPerformanceHighlights entries).bestMonth.change
                ≤ JSNum.key x.change →
              (validChangesA entries).indexOf (analyticsGetPerformanceHighlights entries).bestMonth
                ≤ (validChangesA entries).indexOf x) ∧
            (JSNum.key x.change
                ≤ JSNum.key (analyticsGetPerformanceHighlights entries).worstMonth.change →
              (validChangesA entries).indexOf (analyticsGetPerformanceHighlights entries).worstMonth
                ≤ (validChangesA entries).indexOf x))) ∧
    (∀ entries : List NetWorthEntry,
        (getPerformanceHighlights entries = none ↔ validChangesU entries = []) ∧
        ∀ hl, getPerformanceHighlights entries = some hl →
          hl.bestMonth ∈ validChangesU entries ∧
          hl.worstMonth ∈ validChangesU entries ∧
          (∀ x ∈ validChangesU entries,
            JSNum.key x.change ≤ JSNum.key hl.bestMonth.change ∧
            JSNum.key hl.worstMonth.change ≤ JSNum.key x.change) ∧
          ∀ x ∈ validChangesU entries,
            (JSNum.key hl.bestMonth.change ≤ JSNum.key x.change →
              (validChangesU entries).indexOf hl.bestMonth
                ≤ (validChangesU entries).indexOf x) ∧
            (JSNum.key x.change ≤ JSNum.key hl.worstMonth.change →
              (validChangesU entries).indexOf hl.worstMonth
                ≤ (validChangesU entries).indexOf x)) := by
  refine ⟨?_, ?_, ?_, ?_⟩
  · intro entries h0
    constructor
    · simp [getPerformanceHighlights, validChangesU_eq_nil entries h0]
    · simp [analyticsGetPerformanceHighlights, validChangesA_eq_nil entries h0]
  · intro entries x hx
    refine ⟨?_, validChangesA_ne_nan entries x hx⟩
    simp only [validChangesA, List.mem_filter, bne_iff_ne, ne_eq] at hx
    exact hx.2
  · intro entries hne
    cases hvc : validChangesA entries with
    | nil => exact absurd hvc hne
    | cons x xs =>
        have hdef : analyticsGetPerformanceHighlights entries =
            { bestMonth := xs.foldl
                (fun max curr => if JSNum.ltb max.change curr.change then curr else max) x
              worstMonth := xs.foldl
                (fun min curr => if JSNum.ltb curr.change min.change then curr else min) x } := by
          simp only [analyticsGetPerformanceHighlights, hvc]
        have hnn : ∀ a ∈ x :: xs, a.change ≠ JSNum.nan := by
          rw [← hvc]
          exact validChangesA_ne_nan entries
        have hb := reduce_best_spec AnalyticsHighlight.change x xs hnn _ rfl
        have hw := reduce_worst_spec AnalyticsHighlight.change x xs hnn _ rfl
        rw [hdef]
        exact ⟨hb.1, hw.1, fun a ha => ⟨hb.2.1 a ha, hw.2.1 a ha⟩,
          fun a ha => ⟨fun hle => hb.2.2 a ha hle, fun hle => hw.2.2 a ha hle⟩⟩
  · intro entries
    constructor
    · constructor
      · intro h
        cases hvc : validChangesU entries with
        | nil => rfl
        | cons x xs => simp [getPerformanceHighlights, hvc] at h
      · intro h
        simp [getPerformanceHighlights, h]
    · intro hl hhl
      cases hvc : validChangesU entries with
      | nil => simp [getPerformanceHighlights, hvc] at hhl
      | cons x xs =>
          have hdef : getPerformanceHighlights entries =
              some
                { bestMonth := xs.foldl
                    (fun max curr => if JSNum.ltb max.change curr.change then curr else max) x
                  worstMonth := xs.foldl
                    (fun min curr => if JSNum.ltb curr.change min.change then curr else min) x } := by
            simp only [getPerformanceHighlights, hvc]
          rw [hdef] at hhl
          injection hhl with hhl
          subst hhl
          have hnn : ∀ a ∈ x :: xs, a.change ≠ JSNum.nan := by
            rw [← hvc]
            exact validChangesU_ne_nan entries
          have hb := reduce_best_spec PerformanceHighlight.change x xs hnn _ rfl
          have hw := reduce_worst_spec PerformanceHighlight.change x xs hnn _ rfl
          exact ⟨hb.1, hw.1, fun a ha => ⟨hb.2.1 a ha, hw.2.1 a ha⟩,
            fun a ha => ⟨fun hle => hb.2.2 a ha hle, fun hle => hw.2.2 a ha hle⟩⟩

set_option maxRecDepth 4000 in
/-- C2 witness: the amended theorem applied to an all-zero series and to a
concrete mixed series. -/
theorem performanceHighlights_amended_witness :
    (getPerformanceHighlights zeroChangeSeries = none ∧
      analyticsGetPerformanceHighlights zeroChangeSeries =
        { bestMonth := { date := "", change := JSNum.finite 0, index := none }
          worstMonth := { date := "", change := JSNum.finite 0, index := none } }) ∧
    ((AnalyticsHighlight.mk "Feb" (JSNum.finite 500) (some 1)).change ≠ JSNum.finite 0 ∧
      (AnalyticsHighlight.mk "Feb" (JSNum.finite 500) (some 1)).change ≠ JSNum.nan) ∧
    ((analyticsGetPerformanceHighlights mixedChangeSeries).bestMonth
        ∈ validChangesA mixedChangeSeries ∧
      (analyticsGetPerformanceHighlights mixedChangeSeries).worstMonth
        ∈ validChangesA mixedChangeSeries ∧
      (∀ x ∈ validChangesA mixedChangeSeries,
          JSNum.key x.change
              ≤ JSNum.key (analyticsGetPerformanceHighlights mixedChangeSeries).bestMonth.change ∧
          JSNum.key (analyticsGetPerformanceHighlights mixedChangeSeries).worstMonth.change
              ≤ JSNum.key x.change) ∧
      (∀ x ∈ validChangesA mixedChangeSeries,
          (JSNum.key (analyticsGetPerformanceHighlights mixedChangeSeries).bestMonth.change
              ≤ JSNum.key x.change →
            (validChangesA mixedChangeSeries).indexOf
                (analyticsGetPerformanceHighlights mixedChangeSeries).bestMonth
              ≤ (validChangesA mixedChangeSeries).indexOf x) ∧
          (JSNum.key x.change
              ≤ JSNum.key (analyticsGetPerformanceHighlights mixedChangeSeries).worstMonth.change →
            (validChangesA mixedChangeSeries).indexOf
                (analyticsGetPerformanceHighlights mixedChangeSeries).worstMonth
              ≤ (validChangesA mixedChangeSeries).indexOf x))) ∧
    ((getPerformanceHighlights mixedChangeSeries = none ↔ validChangesU mixedChangeSeries = []) ∧
      ∀ hl, getPerformanceHighlights mixedChangeSeries = some hl →
        hl.bestMonth ∈ validChangesU mixedChangeSeries ∧
        hl.worstMonth ∈ validChangesU mixedChangeSeries ∧
        (∀ x ∈ validChangesU mixedChangeSeries,
          JSNum.key x.change ≤ JSNum.key hl.bestMonth.change ∧
          JSNum.key hl.worstMonth.change ≤ JSNum.key x.change) ∧
        ∀ x ∈ validChangesU mixedChangeSeries,
          (JSNum.key hl.bestMonth.change ≤ JSNum.key x.change →
            (validChangesU mixedChangeSeries).indexOf hl.bestMonth
              ≤ (validChangesU mixedChangeSeries).indexOf x) ∧
          (JSNum.key x.change ≤ JSNum.key hl.worstMonth.change →
            (validChangesU mixedChangeSeries).indexOf hl.worstMonth
              ≤ (validChangesU mixedChangeSeries).indexOf x)) :=
  ⟨performanceHighlights_amended.1 zeroChangeSeries (by with_unfolding_all decide),
    performanceHighlights_amended.2.1 mixedChangeSeries
      (AnalyticsHighlight.mk "Feb" (JSNum.finite 500) (some 1)) (by with_unfolding_all decide),
    performanceHighlights_amended.2.2.1 mixedChangeSeries (by with_unfolding_all decide),
    performanceHighlights_amended.2.2.2 mixedChangeSeries⟩

end NWT
